import Mathlib

/-!
Verification of the scene-editing core of the Waffle Engine editor
(`src/waffle_engine/src/editor/mod.rs`) against its natural-language
specification.  The Rust code is shallowly embedded: `f32` values are
modelled as elements of a linear ordered field (instantiated at `ℚ` for
executable witnesses and at `ℝ` where the code takes square roots),
`f32::NEG_INFINITY`/`f32::INFINITY` as the bottom/top elements of
`WithBot (WithTop F)`, Bevy `Entity` identifiers as natural numbers, and
the per-frame ECS systems as pure functions from their inputs to the
state they write.
-/

namespace WaffleEngine

/-- Three-component vector over `F`, modelling glam `Vec3` with exact coordinates. -/
structure Vec3 (F : Type) where
  x : F
  y : F
  z : F
  deriving DecidableEq, Repr

/-- Two-component vector over `F`, modelling glam `Vec2` with exact coordinates. -/
structure Vec2 (F : Type) where
  x : F
  y : F
  deriving DecidableEq, Repr

instance {F : Type} [Add F] : Add (Vec3 F) where
  add a b := ⟨a.x + b.x, a.y + b.y, a.z + b.z⟩

instance {F : Type} [Add F] : Add (Vec2 F) where
  add a b := ⟨a.x + b.x, a.y + b.y⟩

instance {F : Type} [Mul F] : SMul F (Vec3 F) where
  smul c v := ⟨c * v.x, c * v.y, c * v.z⟩

instance {F : Type} [Zero F] : Zero (Vec3 F) where
  zero := ⟨0, 0, 0⟩

instance {F : Type} [Zero F] : Zero (Vec2 F) where
  zero := ⟨0, 0⟩

/-- Dot product of two `Vec3`s. -/
def Vec3.dot {F : Type} [Add F] [Mul F] (a b : Vec3 F) : F :=
  a.x * b.x + a.y * b.y + a.z * b.z

/-- Cross product of two `Vec3`s. -/
def Vec3.cross {F : Type} [Ring F] (a b : Vec3 F) : Vec3 F :=
  ⟨a.y * b.z - a.z * b.y, a.z * b.x - a.x * b.z, a.x * b.y - a.y * b.x⟩

/-- The `f32` value line extended with `-∞` and `+∞`; `f32::NEG_INFINITY` and
`f32::INFINITY` are modelled as `⊥` and `⊤`.  NaN never arises in the modelled
computations. -/
abbrev EF (F : Type) := WithBot (WithTop F)

/-- Embedding of a finite value into the extended line. -/
def ef {F : Type} (t : F) : EF F := ((t : WithTop F) : EF F)

section Slab

variable {F : Type} [LinearOrderedField F]

/-- One iteration of the slab loop of `ray_aabb_intersection`
(`editor/mod.rs` lines 784-806): the axis data `(origin_i, dir_i, min_i,
max_i)` is tested against the running interval `acc = (tmin, tmax)`; `none`
models the early `return None`. -/
def slabAxis (acc : EF F × EF F) (ax : F × F × F × F) : Option (EF F × EF F) :=
  match ax with
  | (origin_i, dir_i, min_i, max_i) =>
    if |dir_i| < 1 / 1000000 then
      if origin_i < min_i ∨ origin_i > max_i then none else some acc
    else
      let inv := 1 / dir_i
      let t1 := (min_i - origin_i) * inv
      let t2 := (max_i - origin_i) * inv
      let t1' := if t1 > t2 then t2 else t1
      let t2' := if t1 > t2 then t1 else t2
      let tmin := max acc.1 (ef t1')
      let tmax := min acc.2 (ef t2')
      if tmin > tmax then none else some (tmin, tmax)

/-- The per-axis component tuples `(origin[i], direction[i], min[i], max[i])`
for `i = 0, 1, 2`, mirroring the source's `for i in 0..3` loop order. -/
def axisComponents (origin direction bmin bmax : Vec3 F) : List (F × F × F × F) :=
  [(origin.x, direction.x, bmin.x, bmax.x),
   (origin.y, direction.y, bmin.y, bmax.y),
   (origin.z, direction.z, bmin.z, bmax.z)]

/-- `ray_aabb_intersection` (`editor/mod.rs` lines 775-815): slab method over
the three axes starting from the interval `(-∞, +∞)`, followed by the final
classification `tmax < 0 ⇒ None`, `tmin ≥ 0 ⇒ Some tmin`, else `Some tmax`. -/
def ray_aabb_intersection (origin direction bmin bmax : Vec3 F) : Option (EF F) :=
  match (axisComponents origin direction bmin bmax).foldlM slabAxis ((⊥ : EF F), (⊤ : EF F)) with
  | none => none
  | some (tmin, tmax) =>
    if tmax < ef 0 then none
    else if ef 0 ≤ tmin then some tmin
    else some tmax

/-- Spec-side reading of one axis of the slab method: the axis is degenerate
("axis-parallel") when the direction component's magnitude is below `1e-6`,
and it then rejects the ray exactly when the origin lies outside the slab. -/
def parallelOutside (ax : F × F × F × F) : Prop :=
  |ax.2.1| < 1 / 1000000 ∧ (ax.1 < ax.2.2.1 ∨ ax.1 > ax.2.2.2)

instance (ax : F × F × F × F) : Decidable (parallelOutside ax) :=
  inferInstanceAs (Decidable (_ ∧ _))

/-- Spec-side entry distance of an axis: the smaller of the two parametric
slab-plane distances ("swapping if entry > exit"); an axis-parallel axis
imposes no constraint, contributing `-∞`. -/
def axisEntry (ax : F × F × F × F) : EF F :=
  match ax with
  | (origin_i, dir_i, min_i, max_i) =>
    if |dir_i| < 1 / 1000000 then ⊥
    else ef (min ((min_i - origin_i) * (1 / dir_i)) ((max_i - origin_i) * (1 / dir_i)))

/-- Spec-side exit distance of an axis: the larger of the two parametric
slab-plane distances; an axis-parallel axis contributes `+∞`. -/
def axisExit (ax : F × F × F × F) : EF F :=
  match ax with
  | (origin_i, dir_i, min_i, max_i) =>
    if |dir_i| < 1 / 1000000 then ⊤
    else ef (max ((min_i - origin_i) * (1 / dir_i)) ((max_i - origin_i) * (1 / dir_i)))

/-- Spec-side `tMin`: the largest entry distance over the axes. -/
def specTmin (axes : List (F × F × F × F)) : EF F :=
  axes.foldr (fun ax acc => max (axisEntry ax) acc) ⊥

/-- Spec-side `tMax`: the smallest exit distance over the axes. -/
def specTmax (axes : List (F × F × F × F)) : EF F :=
  axes.foldr (fun ax acc => min (axisExit ax) acc) ⊤

/-- The ray/AABB intersection as the specification describes the slab method:
reject if some axis-parallel axis has the origin outside its slab, intersect
the per-axis `[entry, exit]` intervals globally (empty intersection means no
hit), then classify by the sign of `tMin`/`tMax`. -/
def ray_aabb_spec (origin direction bmin bmax : Vec3 F) : Option (EF F) :=
  let axes := axisComponents origin direction bmin bmax
  if ∃ ax ∈ axes, parallelOutside ax then none
  else
    let tmin := specTmin axes
    let tmax := specTmax axes
    if tmin > tmax then none
    else if tmax < ef 0 then none
    else if ef 0 ≤ tmin then some tmin
    else some tmax

/-- The origin lies inside the box (componentwise between `bmin` and `bmax`). -/
def insideBox (p bmin bmax : Vec3 F) : Prop :=
  bmin.x ≤ p.x ∧ p.x ≤ bmax.x ∧ bmin.y ≤ p.y ∧ p.y ≤ bmax.y ∧
    bmin.z ≤ p.z ∧ p.z ≤ bmax.z

instance (p bmin bmax : Vec3 F) : Decidable (insideBox p bmin bmax) :=
  inferInstanceAs (Decidable (_ ∧ _))

end Slab

section ReparentDelete

/-- A `HierarchyReparentEvent` (`editor/mod.rs`): `child` should become a child
of `new_parent`, or a root when `new_parent` is `none`. -/
structure HierarchyReparentEvent where
  child : Nat
  new_parent : Option Nat
  deriving DecidableEq, Repr

/-- A mutation intent emitted to the entity store by `apply_reparent_events`. -/
inductive ReparentIntent where
  | set_parent (child parent : Nat)
  | remove_parent (child : Nat)
  deriving DecidableEq, Repr

/-- `is_descendant` (`editor/mod.rs` lines 1811-1828): explicit-stack walk of
the live `Children` lists starting from `node`, returning `true` iff
`ancestor` is encountered.  The source loop has no visited set, so it can
diverge on cyclic children data; `fuel` bounds the number of loop iterations,
with `none` modelling running out of fuel.  `Vec::push`/`Vec::pop` operate on
the vector's tail, so the stack top is modelled as the list head and a
visited node's children are pushed in reverse order. -/
def is_descendant (children : Nat → List Nat) (ancestor : Nat) :
    Nat → List Nat → Option Bool
  | 0, _ => none
  | _ + 1, [] => some false
  | fuel + 1, current :: stack =>
    if current = ancestor then some true
    else is_descendant children ancestor fuel ((children current).reverse ++ stack)

/-- The processing of one event in `apply_reparent_events` (`editor/mod.rs`
lines 1551-1569): a reparent request with a target parent is dropped (no
intent) when `child == parent` or when `is_descendant(child, parent)` holds;
otherwise the corresponding intent is emitted.  The result is `none` for a
dropped request, and `fuel` feeds the embedded `is_descendant` loop (the
`is_descendant` fuel exhaustion case, which models divergence of the source
loop, also produces no intent). -/
def apply_reparent_event (children : Nat → List Nat) (fuel : Nat)
    (event : HierarchyReparentEvent) : Option ReparentIntent :=
  match event.new_parent with
  | some parent =>
    if event.child = parent then none
    else
      match is_descendant children event.child fuel [parent] with
      | some true => none
      | some false => some (.set_parent event.child parent)
      | none => none
  | none => some (.remove_parent event.child)

/-- The three-node chain of the specification's reparent scenario: A (0) is
the root, B (1) is a child of A, C (2) is a child of B. -/
def chainChildren : Nat → List Nat := fun n =>
  if n = 0 then [1] else if n = 1 then [2] else []

/-- One step of the live child relation: `b` is a direct child of `a`. -/
def childStep (children : Nat → List Nat) (a b : Nat) : Prop :=
  b ∈ children a

/-- Modelled from the spec: `requestDelete` deletion "is recursive (all
descendants removed) and is performed by the external store" — the recursive
despawn invoked by `apply_delete_events` (`editor/mod.rs` lines 1571-1580)
is Bevy library code not present in this repository, so the set of entities
it removes is modelled as everything reachable from the deleted entity
through `Children` links. -/
def deletedBy (children : Nat → List Nat) (entity x : Nat) : Prop :=
  Relation.ReflTransGen (childStep children) entity x

/-- The confirm-dialog "Delete" action of `update_editor_ui` (`editor/mod.rs`
lines 632-638) for `delete_confirm = some entity`: a `DeleteEntityEvent` for
`entity` is sent, and `selected_entity` is cleared exactly when it equals
`some entity`.  Returns the new selection together with the entity whose
delete event was sent. -/
def confirmDelete (selected : Option Nat) (entity : Nat) : Option Nat × Nat :=
  (if selected = some entity then none else selected, entity)

end ReparentDelete

section Hierarchy

/-- One row of the hierarchy query
`Query<(Entity, Option<&Name>, Option<&Parent>), Without<EditorHidden>>`
consumed by `build_hierarchy_snapshot` (`editor/mod.rs` lines 964-984):
entity id, optional `Name` string, optional parent id. -/
structure HierarchyRow where
  id : Nat
  name : Option String
  parent : Option Nat
  deriving DecidableEq, Repr

/-- The label stored in `names` for a row (lines 974-977): the `Name`
component's string, or the placeholder `"Entity "` followed by the entity
index when absent. -/
def rowLabel (row : HierarchyRow) : String :=
  match row.name with
  | some n => n
  | none => "Entity " ++ toString row.id

/-- Lookup in the `names` map built by the first pass; later inserts win,
matching `HashMap::insert` under repeated ids. -/
def lookupLabel (rows : List HierarchyRow) (e : Nat) : Option String :=
  (rows.reverse.find? (fun r => r.id == e)).map rowLabel

/-- `name_lookup` (line 996): the label used for sorting, `""` for an id
without a `names` entry. -/
def sortLabel (rows : List HierarchyRow) (e : Nat) : String :=
  (lookupLabel rows e).getD ""

/-- The label comparison of the two `sort_by` calls (lines 997-1001); Rust's
stable `sort_by` is modelled by the stable `List.mergeSort`. -/
def labelLe (rows : List HierarchyRow) (a b : Nat) : Bool :=
  decide (sortLabel rows a ≤ sortLabel rows b)

/-- The children recorded for parent `p` by the first pass (lines 980-983),
in row order. -/
def childrenRaw (rows : List HierarchyRow) (p : Nat) : List Nat :=
  (rows.filter (fun r => r.parent == some p)).map (fun r => r.id)

/-- Whether the `children` map has an entry for `p` (an entry is created the
first time some row records `p` as its parent). -/
def hasChildrenEntry (rows : List HierarchyRow) (p : Nat) : Bool :=
  !(childrenRaw rows p).isEmpty

/-- The sorted children list for `p` (lines 999-1001). -/
def childrenSorted (rows : List HierarchyRow) (p : Nat) : List Nat :=
  (childrenRaw rows p).mergeSort (labelLe rows)

/-- `has_parent.contains_key(e)` after the first pass. -/
def hasParent (rows : List HierarchyRow) (e : Nat) : Bool :=
  rows.any (fun r => r.id == e && r.parent.isSome)

/-- The root list before sorting (lines 986-994): `[root]` when a scope root
is given, else every queried id without a recorded parent, in row order. -/
def rootsRawFor (rows : List HierarchyRow) (root : Option Nat) : List Nat :=
  match root with
  | some r => [r]
  | none => (rows.map (fun r => r.id)).filter (fun e => !hasParent rows e)

/-- The sorted root list (lines 986-997). -/
def rootsFor (rows : List HierarchyRow) (root : Option Nat) : List Nat :=
  (rootsRawFor rows root).mergeSort (labelLe rows)

/-- The universe of ids the scoped traversal can encounter: the scope root
together with every queried entity id. -/
def dfsUni (rows : List HierarchyRow) (root : Nat) : Finset Nat :=
  insert root (rows.map (fun r => r.id)).toFinset

/-- The explicit-stack depth-first traversal with visited set of
`build_hierarchy_snapshot` (lines 1007-1022), returning the visited nodes in
visit order.  `Vec::push`/`Vec::pop` work at the vector's tail, so the stack
top is the list head and a node's children are pushed in reverse order.  The
`current ∉ uni` disjunct is purely a termination guard: every stack element
lies in `uni` whenever the initial stack does and `uni` is closed under
`children`, which holds at every call site in this file. -/
def dfsVisit (children : Nat → List Nat) (uni : Finset Nat) :
    List Nat → Finset Nat → List Nat
  | [], _ => []
  | current :: stack, visited =>
    if h : current ∈ visited ∨ current ∉ uni then
      dfsVisit children uni stack visited
    else
      current :: dfsVisit children uni ((children current).reverse ++ stack)
        (insert current visited)
termination_by stack visited => ((uni \ visited).card, stack.length)
decreasing_by
  · exact Prod.Lex.right _ (Nat.lt_succ_self _)
  · push_neg at h
    exact Prod.Lex.left _ _ (Finset.card_lt_card
      ⟨Finset.sdiff_subset_sdiff Finset.Subset.rfl (Finset.subset_insert _ _),
        fun hsub =>
          (Finset.mem_sdiff.1 (hsub (Finset.mem_sdiff.2 ⟨h.2, h.1⟩))).2
            (Finset.mem_insert_self _ _)⟩)

/-- The visited set of the scoped snapshot for scope root `r`. -/
def scopedVisited (rows : List HierarchyRow) (r : Nat) : List Nat :=
  dfsVisit (childrenSorted rows) (dfsUni rows r) [r] ∅

/-- The `filtered_children` entries of the scoped snapshot (lines 1016-1021):
one entry per visited node that has a `children` entry, in visit order. -/
def scopedChildrenEntries (rows : List HierarchyRow) (r : Nat) : List (Nat × List Nat) :=
  (scopedVisited rows r).filterMap
    (fun v => if hasChildrenEntry rows v then some (v, childrenSorted rows v) else none)

/-- The `filtered_names` entries of the scoped snapshot (lines 1013-1015). -/
def scopedNames (rows : List HierarchyRow) (r : Nat) : List (Nat × String) :=
  (scopedVisited rows r).filterMap
    (fun v => (lookupLabel rows v).map (fun s => (v, s)))

/-- The children-map entries of the unscoped snapshot: one entry per recorded
parent (`HashMap` iteration order is unspecified; first-occurrence order is
used here). -/
def unscopedChildrenEntries (rows : List HierarchyRow) : List (Nat × List Nat) :=
  ((rows.filterMap (fun r => r.parent)).dedup).map (fun p => (p, childrenSorted rows p))

/-- The hierarchy snapshot (`editor/mod.rs` lines 958-962): root list,
children map (as an entry list) and label map (as an entry list). -/
structure HierarchySnapshot where
  roots : List Nat
  childrenEntries : List (Nat × List Nat)
  names : List (Nat × String)
  deriving DecidableEq, Repr

/-- `build_hierarchy_snapshot` (lines 964-1036). -/
def build_hierarchy_snapshot (rows : List HierarchyRow) (root : Option Nat) :
    HierarchySnapshot :=
  match root with
  | some r =>
    { roots := rootsFor rows root
      childrenEntries := scopedChildrenEntries rows r
      names := scopedNames rows r }
  | none =>
    { roots := rootsFor rows none
      childrenEntries := unscopedChildrenEntries rows
      names := rows.map (fun r => (r.id, rowLabel r)) }

/-- Every id appearing in the snapshot's root list or in one of the children
map's value lists, with multiplicity. -/
def snapshotNodes (s : HierarchySnapshot) : List Nat :=
  s.roots ++ (s.childrenEntries.map Prod.snd).flatten

/-- A two-node store whose external parent data forms a cycle: 0's parent is
1 and 1's parent is 0. -/
def rowsCyc : List HierarchyRow := [⟨0, none, some 1⟩, ⟨1, none, some 0⟩]

/-- A well-formed two-node store: 1 is a child of the root 0. -/
def rowsOk : List HierarchyRow := [⟨0, none, none⟩, ⟨1, none, some 0⟩]

/-- A three-node store used for the label-sorting witness: the root 5 labelled
"b" with children 7 and 9 both labelled "a". -/
def rowsAb : List HierarchyRow :=
  [⟨5, some "b", none⟩, ⟨7, some "a", some 5⟩, ⟨9, some "a", some 5⟩]

end Hierarchy

section Gizmo

/-- `GizmoMode` (`editor/mod.rs`). -/
inductive GizmoMode where
  | Move
  | Rotate
  | Scale
  deriving DecidableEq, Repr

/-- `GizmoAxis` (`editor/mod.rs`). -/
inductive GizmoAxis where
  | X
  | Y
  | Z
  deriving DecidableEq, Repr

/-- `AxisSpace` (`editor/mod.rs`). -/
inductive AxisSpace where
  | Local
  | Global
  deriving DecidableEq, Repr

/-- Real-valued 3D vector, for code paths that take square roots. -/
abbrev Vec3R := Vec3 ℝ

/-- Real-valued 2D vector. -/
abbrev Vec2R := Vec2 ℝ

/-- Quaternion with real components, modelling glam `Quat`. -/
structure Quat where
  x : ℝ
  y : ℝ
  z : ℝ
  w : ℝ

/-- glam quaternion-vector rotation `q * v`:
`v + w * (2 * cross(q.xyz, v)) + cross(q.xyz, 2 * cross(q.xyz, v))`. -/
def Quat.rotateVec (q : Quat) (v : Vec3R) : Vec3R :=
  let u : Vec3R := ⟨q.x, q.y, q.z⟩
  let t : Vec3R := (2 : ℝ) • u.cross v
  v + q.w • t + u.cross t

/-- glam quaternion multiplication (Hamilton product). -/
def Quat.mul (q r : Quat) : Quat :=
  ⟨q.w * r.x + q.x * r.w + q.y * r.z - q.z * r.y,
   q.w * r.y - q.x * r.z + q.y * r.w + q.z * r.x,
   q.w * r.z + q.x * r.y - q.y * r.x + q.z * r.w,
   q.w * r.w - q.x * r.x - q.y * r.y - q.z * r.z⟩

/-- `Quat::from_axis_angle(axis, angle)`: the axis scaled by the sine of the
half angle, paired with the cosine of the half angle. -/
noncomputable def Quat.fromAxisAngle (axis : Vec3R) (angle : ℝ) : Quat :=
  ⟨axis.x * Real.sin (angle / 2), axis.y * Real.sin (angle / 2),
   axis.z * Real.sin (angle / 2), Real.cos (angle / 2)⟩

/-- Bevy `Transform`: translation, rotation, scale. -/
structure Transform where
  translation : Vec3R
  rotation : Quat
  scale : Vec3R

/-- `Vec3::distance`. -/
noncomputable def dist3 (a b : Vec3R) : ℝ :=
  Real.sqrt ((a.x - b.x) ^ 2 + (a.y - b.y) ^ 2 + (a.z - b.z) ^ 2)

/-- The axis direction used by the Move and Rotate branches (`editor/mod.rs`
lines 1146-1153 and 1164-1171): the object's rotated basis vector in Local
space, the world basis vector otherwise. -/
def axisDir (space : AxisSpace) (rotation : Quat) (axis : GizmoAxis) : Vec3R :=
  match space, axis with
  | AxisSpace.Local, GizmoAxis.X => rotation.rotateVec ⟨1, 0, 0⟩
  | AxisSpace.Local, GizmoAxis.Y => rotation.rotateVec ⟨0, 1, 0⟩
  | AxisSpace.Local, GizmoAxis.Z => rotation.rotateVec ⟨0, 0, 1⟩
  | _, GizmoAxis.X => ⟨1, 0, 0⟩
  | _, GizmoAxis.Y => ⟨0, 1, 0⟩
  | _, GizmoAxis.Z => ⟨0, 0, 1⟩

/-- The scale component selected by an axis. -/
def scaleComp (axis : GizmoAxis) (s : Vec3R) : ℝ :=
  match axis with
  | GizmoAxis.X => s.x
  | GizmoAxis.Y => s.y
  | GizmoAxis.Z => s.z

/-- The per-frame inputs of `update_selected_entity_transform` (`editor/mod.rs`
lines 1080-1099): the egui context availability and pointer-capture state,
viewport flags, mouse buttons, accumulated mouse-motion events, the
editor-state fields the system reads, the main camera transform
(`camera_query.get_single()`, `none` when unavailable) and the selected
entity's transform (`transforms.get_mut(selected)`, `none` when missing). -/
structure GizmoInput where
  ctxAvailable : Bool
  wantsPointer : Bool
  viewportHovered : Bool
  viewportFocused : Bool
  leftPressed : Bool
  rightPressed : Bool
  middlePressed : Bool
  motions : List Vec2R
  selected : Option Nat
  activeAxis : Option GizmoAxis
  gizmoMode : GizmoMode
  axisSpace : AxisSpace
  camera : Option Transform
  selectedTransform : Option Transform

/-- The state written by one run of `update_selected_entity_transform`: the
new `active_axis` and the transform value written to the selected entity
(`none` when the system returned without writing). -/
structure GizmoOutput where
  activeAxis : Option GizmoAxis
  transformWrite : Option Transform

/-- The accumulated mouse delta (`editor/mod.rs` lines 1124-1127). -/
def gizmoDelta (inp : GizmoInput) : Vec2R :=
  inp.motions.foldl (· + ·) (0 : Vec2R)

/-- The view-plane world-space delta of a Move drag (`editor/mod.rs` lines
1137-1141): `(right * delta.x + up * -delta.y) * (0.002 * distance)` with
`distance` the camera-to-object distance floored at `0.1`. -/
noncomputable def gizmoWorldDelta (inp : GizmoInput) (camera transform : Transform) : Vec3R :=
  let delta := gizmoDelta inp
  let distance := max (dist3 camera.translation transform.translation) 0.1
  ((0.002 : ℝ) * distance) •
    (delta.x • camera.rotation.rotateVec ⟨1, 0, 0⟩ +
      (-delta.y) • camera.rotation.rotateVec ⟨0, 1, 0⟩)

/-- `update_selected_entity_transform` (`editor/mod.rs` lines 1080-1188) as a
pure step function: the guard cascade (missing context, pointer captured by
other UI while the viewport is not hovered, viewport unfocused, primary
button not pressed — the only case that clears `active_axis` — no selection,
no camera, right/middle button held, zero delta, missing transform) followed
by the Move/Rotate/Scale delta-to-transform conversion. -/
noncomputable def update_selected_entity_transform (inp : GizmoInput) : GizmoOutput :=
  if !inp.ctxAvailable then ⟨inp.activeAxis, none⟩
  else if inp.wantsPointer && !inp.viewportHovered then ⟨inp.activeAxis, none⟩
  else if !inp.viewportFocused then ⟨inp.activeAxis, none⟩
  else if !inp.leftPressed then ⟨none, none⟩
  else
    match inp.selected with
    | none => ⟨inp.activeAxis, none⟩
    | some _ =>
      match inp.camera with
      | none => ⟨inp.activeAxis, none⟩
      | some camera =>
        if inp.rightPressed || inp.middlePressed then ⟨inp.activeAxis, none⟩
        else
          let delta := gizmoDelta inp
          if delta.x * delta.x + delta.y * delta.y = 0 then ⟨inp.activeAxis, none⟩
          else
            match inp.selectedTransform with
            | none => ⟨inp.activeAxis, none⟩
            | some transform =>
              let world_delta := gizmoWorldDelta inp camera transform
              match inp.gizmoMode with
              | GizmoMode.Move =>
                match inp.activeAxis with
                | some axis =>
                  let dir := axisDir inp.axisSpace transform.rotation axis
                  let amount := world_delta.dot dir
                  ⟨inp.activeAxis, some { transform with
                    translation := transform.translation + amount • dir }⟩
                | none =>
                  ⟨inp.activeAxis, some { transform with
                    translation := transform.translation + world_delta }⟩
              | GizmoMode.Rotate =>
                match inp.activeAxis with
                | none => ⟨inp.activeAxis, none⟩
                | some axis =>
                  let dir := axisDir inp.axisSpace transform.rotation axis
                  let angle := (delta.x + delta.y) * 0.004
                  ⟨inp.activeAxis, some { transform with
                    rotation := (Quat.fromAxisAngle dir angle).mul transform.rotation }⟩
              | GizmoMode.Scale =>
                match inp.activeAxis with
                | none => ⟨inp.activeAxis, none⟩
                | some axis =>
                  let amount := 1 + (delta.x + delta.y) * 0.005
                  let clamped := min (max amount 0.1) 10
                  match axis with
                  | GizmoAxis.X =>
                    ⟨inp.activeAxis, some { transform with scale :=
                      ⟨max (transform.scale.x * clamped) 0.01,
                        transform.scale.y, transform.scale.z⟩ }⟩
                  | GizmoAxis.Y =>
                    ⟨inp.activeAxis, some { transform with scale :=
                      ⟨transform.scale.x,
                        max (transform.scale.y * clamped) 0.01,
                        transform.scale.z⟩ }⟩
                  | GizmoAxis.Z =>
                    ⟨inp.activeAxis, some { transform with scale :=
                      ⟨transform.scale.x, transform.scale.y,
                        max (transform.scale.z * clamped) 0.01⟩ }⟩

/-- Concrete input for the scale-floor counterexample: a Scale drag on the X
axis with accumulated delta `(-1000, 0)` and current X scale `0.01`. -/
noncomputable def scaleFloorInput : GizmoInput :=
  { ctxAvailable := true, wantsPointer := false, viewportHovered := true
    viewportFocused := true, leftPressed := true, rightPressed := false
    middlePressed := false, motions := [⟨-1000, 0⟩], selected := some 0
    activeAxis := some GizmoAxis.X, gizmoMode := GizmoMode.Scale
    axisSpace := AxisSpace.Global
    camera := some ⟨⟨0, 0, 5⟩, ⟨0, 0, 0, 1⟩, ⟨1, 1, 1⟩⟩
    selectedTransform := some ⟨⟨0, 0, 0⟩, ⟨0, 0, 0, 1⟩, ⟨1/100, 1, 1⟩⟩ }

/-- Concrete input for the Move distance-floor counterexample: a Move drag on
the global Y axis with delta `(0, -10)` and the camera exactly at the
object's position. -/
noncomputable def moveFloorInput : GizmoInput :=
  { ctxAvailable := true, wantsPointer := false, viewportHovered := true
    viewportFocused := true, leftPressed := true, rightPressed := false
    middlePressed := false, motions := [⟨0, -10⟩], selected := some 0
    activeAxis := some GizmoAxis.Y, gizmoMode := GizmoMode.Move
    axisSpace := AxisSpace.Global
    camera := some ⟨⟨0, 0, 0⟩, ⟨0, 0, 0, 1⟩, ⟨1, 1, 1⟩⟩
    selectedTransform := some ⟨⟨0, 0, 0⟩, ⟨0, 0, 0, 1⟩, ⟨1, 1, 1⟩⟩ }

/-- The camera transform of the Move witness: 5 units in front of the
object along Z, unrotated. -/
noncomputable def moveWitnessCamera : Transform :=
  ⟨⟨0, 0, 5⟩, ⟨0, 0, 0, 1⟩, ⟨1, 1, 1⟩⟩

/-- The object transform of the Move witness: the identity pose at the
origin. -/
noncomputable def moveWitnessTransform : Transform :=
  ⟨⟨0, 0, 0⟩, ⟨0, 0, 0, 1⟩, ⟨1, 1, 1⟩⟩

/-- Concrete input for the Move witness: delta `(0, -10)`, global Y axis,
camera 5 units from the object. -/
noncomputable def moveWitnessInput : GizmoInput :=
  { ctxAvailable := true, wantsPointer := false, viewportHovered := true
    viewportFocused := true, leftPressed := true, rightPressed := false
    middlePressed := false, motions := [⟨0, -10⟩], selected := some 0
    activeAxis := some GizmoAxis.Y, gizmoMode := GizmoMode.Move
    axisSpace := AxisSpace.Global, camera := some moveWitnessCamera
    selectedTransform := some moveWitnessTransform }

/-- The object transform of the Scale witness. -/
noncomputable def scaleWitnessTransform : Transform :=
  ⟨⟨0, 0, 0⟩, ⟨0, 0, 0, 1⟩, ⟨2, 3, 4⟩⟩

/-- Concrete input for the Scale witness: delta `(10, 10)` on the Y axis. -/
noncomputable def scaleWitnessInput : GizmoInput :=
  { ctxAvailable := true, wantsPointer := false, viewportHovered := true
    viewportFocused := true, leftPressed := true, rightPressed := false
    middlePressed := false, motions := [⟨10, 10⟩], selected := some 0
    activeAxis := some GizmoAxis.Y, gizmoMode := GizmoMode.Scale
    axisSpace := AxisSpace.Global, camera := some moveWitnessCamera
    selectedTransform := some scaleWitnessTransform }

/-- Concrete input for the focus-loss counterexample: the viewport has lost
focus (and the button is up) while a drag on the X axis was active. -/
def focusLossInput : GizmoInput :=
  { ctxAvailable := true, wantsPointer := false, viewportHovered := false
    viewportFocused := false, leftPressed := false, rightPressed := false
    middlePressed := false, motions := [], selected := some 0
    activeAxis := some GizmoAxis.X, gizmoMode := GizmoMode.Move
    axisSpace := AxisSpace.Global, camera := none, selectedTransform := none }

end Gizmo

section Picking

/-- Real 4-by-4 matrix, modelling glam `Mat4`. -/
abbrev Mat4 := Matrix (Fin 4) (Fin 4) ℝ

/-- `Mat4::transform_point3`: multiply `(x, y, z, 1)` by the matrix and take
the first three components (the matrix is assumed affine; no perspective
divide). -/
noncomputable def transformPoint3 (m : Mat4) (v : Vec3R) : Vec3R :=
  let w := m.mulVec ![v.x, v.y, v.z, 1]
  ⟨w 0, w 1, w 2⟩

/-- `Mat4::transform_vector3`: multiply `(x, y, z, 0)` by the matrix and take
the first three components. -/
noncomputable def transformVector3 (m : Mat4) (v : Vec3R) : Vec3R :=
  let w := m.mulVec ![v.x, v.y, v.z, 0]
  ⟨w 0, w 1, w 2⟩

/-- `Vec3::normalize_or_zero`: the unit vector in the same direction, or the
zero vector for zero input (glam also yields zero for non-finite input, which
does not arise over `ℝ`). -/
noncomputable def normalizeOrZero (v : Vec3R) : Vec3R :=
  if v = 0 then 0
  else (1 / Real.sqrt (v.x ^ 2 + v.y ^ 2 + v.z ^ 2)) • v

/-- The finite part of an extended value: `some` for a finite value, `none`
for `±∞`. -/
def efFinite {F : Type} (t : EF F) : Option F :=
  WithBot.recBotCoe none (fun s => WithTop.recTopCoe none some s) t

/-- One pick candidate of the `handle_viewport_picking` loop (`editor/mod.rs`
lines 724-743): entity id, world transform (`GlobalTransform::compute_matrix`)
and local-space AABB; `none` models a missing mesh asset or a mesh without an
AABB, both skipped by the loop with `continue`. -/
structure PickCandidate where
  id : Nat
  world : Mat4
  aabb : Option (Vec3R × Vec3R)

/-- `ray_aabb_intersection_world` (`editor/mod.rs` lines 752-773): invert the
world matrix (glam's adjugate-over-determinant inverse has non-finite entries
exactly when the determinant is zero, which `is_finite` rejects), move the
ray to local space with normalized direction, intersect, convert the local
hit point back to world space and return its distance to the ray origin.  An
infinite slab distance — possible only when the transformed direction
normalises to zero, see `ray_aabb_finite_of_big_component` — would produce a
non-finite distance in the original and is mapped to `none`. -/
noncomputable def ray_aabb_intersection_world (origin direction : Vec3R)
    (world_from_local : Mat4) (mn mx : Vec3R) : Option ℝ :=
  if world_from_local.det = 0 then none
  else
    let local_from_world := world_from_local⁻¹
    let local_origin := transformPoint3 local_from_world origin
    let local_dir := normalizeOrZero (transformVector3 local_from_world direction)
    match ray_aabb_intersection local_origin local_dir mn mx with
    | none => none
    | some t =>
      match efFinite t with
      | none => none
      | some tf =>
        let local_hit := local_origin + tf • local_dir
        let world_hit := transformPoint3 world_from_local local_hit
        some (dist3 world_hit origin)

/-- The per-candidate test of the picking loop (`editor/mod.rs` lines
724-739). -/
noncomputable def candidateHit (origin direction : Vec3R) (c : PickCandidate) :
    Option ℝ :=
  match c.aabb with
  | none => none
  | some (mn, mx) => ray_aabb_intersection_world origin direction c.world mn mx

/-- The best-hit fold of `handle_viewport_picking` (`editor/mod.rs` lines
723-743): a candidate replaces the incumbent exactly when its distance is
strictly smaller (`best_hit.map(|(_, best)| distance < best).unwrap_or(true)`),
so ties keep the first encountered. -/
noncomputable def pickBest (origin direction : Vec3R) :
    Option (Nat × ℝ) → List PickCandidate → Option (Nat × ℝ)
  | best, [] => best
  | best, c :: rest =>
    match candidateHit origin direction c with
    | none => pickBest origin direction best rest
    | some distance =>
      match best with
      | none => pickBest origin direction (some (c.id, distance)) rest
      | some pr =>
        if distance < pr.2 then pickBest origin direction (some (c.id, distance)) rest
        else pickBest origin direction best rest

/-- The selection update of `handle_viewport_picking` (`editor/mod.rs` lines
745-749): the nearest hit becomes the selection, and a miss clears the
selection (the previous selection is never kept). -/
noncomputable def pickSelection (prev : Option Nat) (origin direction : Vec3R)
    (cs : List PickCandidate) : Option Nat :=
  match pickBest origin direction none cs with
  | some (e, _) => some e
  | none => none

/-- Spec-side description of the fold's result: `c` is the first candidate
attaining the strictly smallest hit distance. -/
def firstMin (origin direction : Vec3R) (cs : List PickCandidate)
    (e : Nat) (d : ℝ) : Prop :=
  ∃ l1 c l2, cs = l1 ++ c :: l2 ∧ c.id = e ∧
    candidateHit origin direction c = some d ∧
    (∀ c' ∈ l1, ∀ d', candidateHit origin direction c' = some d' → d < d') ∧
    (∀ c' ∈ l2, ∀ d', candidateHit origin direction c' = some d' → d ≤ d')

/-- A candidate without a usable mesh AABB, skipped by the picking loop. -/
noncomputable def pickMissCandidate : PickCandidate := ⟨7, 1, none⟩

/-- A candidate whose world transform is singular (the zero matrix), rejected
by the `is_finite` check on the inverse. -/
noncomputable def pickZeroDetCandidate : PickCandidate :=
  ⟨8, 0, some (⟨0, 0, 0⟩, ⟨1, 1, 1⟩)⟩

end Picking

section SlabLemmas

variable {F : Type} [LinearOrderedField F]

theorem ef_le_ef {x y : F} : ef x ≤ ef y ↔ x ≤ y := by
  simp [ef]

theorem ef_lt_ef {x y : F} : ef x < ef y ↔ x < y := by
  simp [ef]

theorem ite_swap_min {t1 t2 : F} : (if t1 > t2 then t2 else t1) = min t1 t2 := by
  rcases le_or_lt t1 t2 with h | h
  · simp [min_eq_left h, not_lt.2 h]
  · simp [min_eq_right h.le, h]

theorem ite_swap_max {t1 t2 : F} : (if t1 > t2 then t1 else t2) = max t1 t2 := by
  rcases le_or_lt t1 t2 with h | h
  · simp [max_eq_right h, not_lt.2 h]
  · simp [max_eq_left h.le, h]

theorem slabAxis_par_out {a b : EF F} {o d mn mx : F} (h1 : |d| < 1 / 1000000)
    (h2 : o < mn ∨ o > mx) : slabAxis (a, b) (o, d, mn, mx) = none := by
  simp only [slabAxis]
  rw [if_pos h1, if_pos h2]

theorem slabAxis_par_in {a b : EF F} {o d mn mx : F} (h1 : |d| < 1 / 1000000)
    (h2 : ¬(o < mn ∨ o > mx)) : slabAxis (a, b) (o, d, mn, mx) = some (a, b) := by
  simp only [slabAxis]
  rw [if_pos h1, if_neg h2]

theorem slabAxis_nonpar {a b : EF F} {o d mn mx : F} (h1 : ¬ |d| < 1 / 1000000) :
    slabAxis (a, b) (o, d, mn, mx) =
      (if max a (ef (min ((mn - o) * (1 / d)) ((mx - o) * (1 / d)))) >
          min b (ef (max ((mn - o) * (1 / d)) ((mx - o) * (1 / d)))) then none
       else some (max a (ef (min ((mn - o) * (1 / d)) ((mx - o) * (1 / d)))),
         min b (ef (max ((mn - o) * (1 / d)) ((mx - o) * (1 / d)))))) := by
  simp only [slabAxis]
  rw [if_neg h1, ite_swap_min, ite_swap_max]

theorem axisEntry_par {o d mn mx : F} (h1 : |d| < 1 / 1000000) :
    axisEntry (o, d, mn, mx) = ⊥ := by
  simp only [axisEntry]
  rw [if_pos h1]

theorem axisExit_par {o d mn mx : F} (h1 : |d| < 1 / 1000000) :
    axisExit (o, d, mn, mx) = ⊤ := by
  simp only [axisExit]
  rw [if_pos h1]

theorem axisEntry_nonpar {o d mn mx : F} (h1 : ¬ |d| < 1 / 1000000) :
    axisEntry (o, d, mn, mx) =
      ef (min ((mn - o) * (1 / d)) ((mx - o) * (1 / d))) := by
  simp only [axisEntry]
  rw [if_neg h1]

theorem axisExit_nonpar {o d mn mx : F} (h1 : ¬ |d| < 1 / 1000000) :
    axisExit (o, d, mn, mx) =
      ef (max ((mn - o) * (1 / d)) ((mx - o) * (1 / d))) := by
  simp only [axisExit]
  rw [if_neg h1]

theorem specTmin_cons {ax : F × F × F × F} {rest : List (F × F × F × F)} :
    specTmin (ax :: rest) = max (axisEntry ax) (specTmin rest) := rfl

theorem specTmax_cons {ax : F × F × F × F} {rest : List (F × F × F × F)} :
    specTmax (ax :: rest) = min (axisExit ax) (specTmax rest) := rfl

/-- The early-exit slab fold equals the specification's global description:
reject when an axis-parallel axis has the origin outside its slab, otherwise
intersect the accumulated interval with the global `[tMin, tMax]` and reject
exactly when it is empty. -/
theorem foldlM_slabAxis_eq (axes : List (F × F × F × F)) (a b : EF F) (hab : a ≤ b) :
    axes.foldlM slabAxis (a, b) =
      if ∃ ax ∈ axes, parallelOutside ax then none
      else if max a (specTmin axes) > min b (specTmax axes) then none
      else some (max a (specTmin axes), min b (specTmax axes)) := by
  induction axes generalizing a b with
  | nil =>
    simp only [List.foldlM_nil, List.not_mem_nil, false_and, exists_false, exists_prop,
      if_false, specTmin, specTmax, List.foldr_nil]
    rw [max_eq_left (bot_le : (⊥ : EF F) ≤ a), min_eq_left (le_top : b ≤ ⊤),
      if_neg (not_lt.2 hab)]
    rfl
  | cons ax rest ih =>
    obtain ⟨o, d, mn, mx⟩ := ax
    rw [List.foldlM_cons]
    by_cases hpar : |d| < 1 / 1000000
    · by_cases hout : o < mn ∨ o > mx
      · have hpo : parallelOutside (F := F) (o, d, mn, mx) := ⟨hpar, hout⟩
        rw [slabAxis_par_out hpar hout]
        rw [if_pos ⟨(o, d, mn, mx), List.mem_cons_self _ _, hpo⟩]
        rfl
      · have hpo : ¬ parallelOutside (F := F) (o, d, mn, mx) := fun h => hout h.2
        have hex : (∃ ax ∈ (o, d, mn, mx) :: rest, parallelOutside ax) ↔
            ∃ ax ∈ rest, parallelOutside ax := by
          simp [List.exists_mem_cons_iff, hpo]
        rw [slabAxis_par_in hpar hout]
        show rest.foldlM slabAxis (a, b) = _
        rw [ih a b hab, specTmin_cons, specTmax_cons, axisEntry_par hpar, axisExit_par hpar,
          max_eq_right (bot_le : (⊥ : EF F) ≤ specTmin rest),
          min_eq_right (le_top : specTmax rest ≤ ⊤)]
        exact if_congr hex.symm rfl rfl
    · have hpo : ¬ parallelOutside (F := F) (o, d, mn, mx) := fun h => hpar h.1
      rw [slabAxis_nonpar hpar]
      set e : F := min ((mn - o) * (1 / d)) ((mx - o) * (1 / d)) with he
      set X : F := max ((mn - o) * (1 / d)) ((mx - o) * (1 / d)) with hX
      have hcons_min : specTmin ((o, d, mn, mx) :: rest) = max (ef e) (specTmin rest) := by
        rw [specTmin_cons, axisEntry_nonpar hpar]
      have hcons_max : specTmax ((o, d, mn, mx) :: rest) = min (ef X) (specTmax rest) := by
        rw [specTmax_cons, axisExit_nonpar hpar]
      have hex : (∃ ax ∈ (o, d, mn, mx) :: rest, parallelOutside ax) ↔
          ∃ ax ∈ rest, parallelOutside ax := by
        simp [List.exists_mem_cons_iff, hpo]
      have hmax_assoc : max a (max (ef e) (specTmin rest)) = max (max a (ef e)) (specTmin rest) :=
        (max_assoc a (ef e) (specTmin rest)).symm
      have hmin_assoc : min b (min (ef X) (specTmax rest)) = min (min b (ef X)) (specTmax rest) :=
        (min_assoc b (ef X) (specTmax rest)).symm
      by_cases hempty : max a (ef e) > min b (ef X)
      · rw [if_pos hempty]
        have hgt : max a (specTmin ((o, d, mn, mx) :: rest)) >
            min b (specTmax ((o, d, mn, mx) :: rest)) := by
          rw [hcons_min, hcons_max, hmax_assoc, hmin_assoc]
          exact lt_of_le_of_lt (min_le_left _ _) (lt_of_lt_of_le hempty (le_max_left _ _))
        by_cases hrest : ∃ ax ∈ rest, parallelOutside ax
        · rw [if_pos (hex.mpr hrest)]
          rfl
        · rw [if_neg (fun h => hrest (hex.mp h)), if_pos hgt]
          rfl
      · rw [if_neg hempty]
        show rest.foldlM slabAxis (max a (ef e), min b (ef X)) = _
        rw [ih _ _ (not_lt.1 hempty), hcons_min, hcons_max, hmax_assoc, hmin_assoc]
        exact if_congr hex.symm rfl rfl

/-- The source ray/AABB routine computes exactly the specification's global
slab-method description. -/
theorem ray_aabb_eq_spec {F : Type} [LinearOrderedField F] (o d mn mx : Vec3 F) :
    ray_aabb_intersection o d mn mx = ray_aabb_spec o d mn mx := by
  unfold ray_aabb_intersection ray_aabb_spec
  rw [foldlM_slabAxis_eq _ _ _ (bot_le : (⊥ : EF F) ≤ ⊤),
    max_eq_right (bot_le : (⊥ : EF F) ≤ specTmin (axisComponents o d mn mx)),
    min_eq_right (le_top : specTmax (axisComponents o d mn mx) ≤ ⊤)]
  by_cases hex : ∃ ax ∈ axisComponents o d mn mx, parallelOutside ax
  · rw [if_pos hex, if_pos hex]
  · rw [if_neg hex, if_neg hex]
    by_cases hgt : specTmin (axisComponents o d mn mx) > specTmax (axisComponents o d mn mx)
    · simp [hgt]
    · simp [hgt]

/-- The slab fold never rejects a ray whose origin is inside every slab, and
the resulting interval contains `0`. -/
theorem foldlM_slabAxis_inside {F : Type} [LinearOrderedField F]
    (axes : List (F × F × F × F)) (a b : EF F)
    (ha : a ≤ ef 0) (hb : ef 0 ≤ b)
    (hin : ∀ ax ∈ axes, ax.2.2.1 ≤ ax.1 ∧ ax.1 ≤ ax.2.2.2) :
    ∃ m M, axes.foldlM slabAxis (a, b) = some (m, M) ∧ m ≤ ef 0 ∧ ef 0 ≤ M := by
  induction axes generalizing a b with
  | nil => exact ⟨a, b, rfl, ha, hb⟩
  | cons ax rest ih =>
    obtain ⟨o, d, mn, mx⟩ := ax
    obtain ⟨h1, h2⟩ := hin _ (List.mem_cons_self _ _)
    rw [List.foldlM_cons]
    by_cases hpar : |d| < 1 / 1000000
    · rw [slabAxis_par_in hpar (not_or.mpr ⟨not_lt.2 h1, not_lt.2 h2⟩)]
      exact ih a b ha hb fun ax hax => hin _ (List.mem_cons_of_mem _ hax)
    · have hd : d ≠ 0 := by
        intro h
        exact hpar (by rw [h, abs_zero]; norm_num)
      have hsub1 : mn - o ≤ 0 := sub_nonpos.2 h1
      have hsub2 : 0 ≤ mx - o := sub_nonneg.2 h2
      have hsigns : min ((mn - o) * (1 / d)) ((mx - o) * (1 / d)) ≤ 0 ∧
          0 ≤ max ((mn - o) * (1 / d)) ((mx - o) * (1 / d)) := by
        rcases lt_or_gt_of_ne hd with hneg | hpos
        · have hinv : 1 / d < 0 := one_div_neg.2 hneg
          constructor
          · exact le_trans (min_le_right _ _) (by nlinarith)
          · exact le_trans (by nlinarith : (0 : F) ≤ (mn - o) * (1 / d)) (le_max_left _ _)
        · have hinv : 0 < 1 / d := one_div_pos.2 hpos
          constructor
          · exact le_trans (min_le_left _ _) (by nlinarith)
          · exact le_trans (by nlinarith : (0 : F) ≤ (mx - o) * (1 / d)) (le_max_right _ _)
      have hm : max a (ef (min ((mn - o) * (1 / d)) ((mx - o) * (1 / d)))) ≤ ef 0 :=
        max_le ha (ef_le_ef.2 hsigns.1)
      have hM : ef 0 ≤ min b (ef (max ((mn - o) * (1 / d)) ((mx - o) * (1 / d)))) :=
        le_min hb (ef_le_ef.2 hsigns.2)
      rw [slabAxis_nonpar hpar, if_neg (not_lt.2 (le_trans hm hM))]
      exact ih _ _ hm hM fun ax hax => hin _ (List.mem_cons_of_mem _ hax)

/-- C8: for every box and every ray whose origin lies inside the box, the
ray/AABB intersection never returns `None`; it returns `Some t` with `t ≥ 0`
(`Some 0.0` when `tMin` reaches `0`, otherwise a non-negative exit distance). -/
theorem C8_inside_origin_hit (F : Type) [LinearOrderedField F]
    (o d mn mx : Vec3 F) (h : insideBox o mn mx) :
    ∃ t, ray_aabb_intersection o d mn mx = some t ∧ ef 0 ≤ t := by
  obtain ⟨hx1, hx2, hy1, hy2, hz1, hz2⟩ := h
  obtain ⟨m, M, heq, hm, hM⟩ :=
    foldlM_slabAxis_inside (axisComponents o d mn mx) ⊥ ⊤ bot_le le_top
      (by
        intro ax hax
        simp only [axisComponents, List.mem_cons, List.not_mem_nil, or_false] at hax
        rcases hax with h | h | h <;> subst h <;> exact ⟨by assumption, by assumption⟩)
  unfold ray_aabb_intersection
  rw [heq]
  by_cases hlt : M < ef 0
  · exact absurd hlt (not_lt.2 hM)
  · by_cases hge : ef 0 ≤ m
    · exact ⟨m, by simp [hlt, hge], hge⟩
    · exact ⟨M, by simp [hlt, hge], hM⟩

/-- C8 witness: a concrete inside-origin ray on a concrete box. -/
theorem C8_inside_origin_hit_witness :
    insideBox (F := ℚ) ⟨1/2, 1/2, 1/2⟩ ⟨0, 0, 0⟩ ⟨1, 1, 1⟩ ∧
      ∃ t, ray_aabb_intersection (F := ℚ) ⟨1/2, 1/2, 1/2⟩ ⟨1, 0, 0⟩ ⟨0, 0, 0⟩ ⟨1, 1, 1⟩ =
        some t ∧ ef 0 ≤ t :=
  ⟨by norm_num [insideBox], C8_inside_origin_hit ℚ _ _ _ _ (by norm_num [insideBox])⟩

/-- C6: the ray/AABB intersection follows the slab method exactly as the
specification describes it — an axis whose direction magnitude is below
`1e-6` rejects the ray exactly when the origin is outside that slab and
otherwise imposes no constraint, the per-axis entry/exit intervals are
intersected (an empty intersection is a miss, as in the slab method), and the
final classification is `tMax < 0 ⇒ None`, `tMin ≥ 0 ⇒ Some tMin`, else
`Some tMax` — and the concrete scenario: box min `(0,0,0)`, max `(1,1,1)`,
origin `(-5, 0.5, 0.5)`, direction `(1,0,0)` hits at distance `5`. -/
theorem C6_slab_method :
    (∀ (F : Type) [LinearOrderedField F] (o d mn mx : Vec3 F),
        ray_aabb_intersection o d mn mx = ray_aabb_spec o d mn mx) ∧
      ray_aabb_intersection (F := ℚ) ⟨-5, 1/2, 1/2⟩ ⟨1, 0, 0⟩ ⟨0, 0, 0⟩ ⟨1, 1, 1⟩ =
        some (ef 5) :=
  ⟨fun _ _ o d mn mx => ray_aabb_eq_spec o d mn mx, by
    norm_num [ray_aabb_intersection, axisComponents, List.foldlM_cons, List.foldlM_nil,
      slabAxis, Option.pure_def, Option.bind_eq_bind, Option.some_bind,
      bot_sup_eq, top_inf_eq, ef]
    have h65 : ¬ ((6 : EF ℚ) < 5) := by norm_cast
    have h60 : ¬ ((6 : EF ℚ) < 0) := by norm_cast
    have h05 : (0 : EF ℚ) ≤ 5 := by norm_cast
    simp [h65, h60, h05]⟩

theorem ef_ne_bot {F : Type} [LinearOrderedField F] (x : F) : ef x ≠ (⊥ : EF F) := by
  simp [ef]

theorem ef_ne_top {F : Type} [LinearOrderedField F] (x : F) : ef x ≠ (⊤ : EF F) := by
  intro h
  rw [ef, show (⊤ : EF F) = ((⊤ : WithTop F) : EF F) from rfl] at h
  exact WithTop.coe_ne_top (WithBot.coe_inj.1 h)

theorem ef_exists_of_ne {F : Type} [LinearOrderedField F] {t : EF F}
    (hb : t ≠ ⊥) (ht : t ≠ ⊤) : ∃ tf : F, t = ef tf := by
  induction t using WithBot.recBotCoe with
  | bot => exact absurd rfl hb
  | coe s =>
    induction s using WithTop.recTopCoe with
    | top => exact absurd rfl ht
    | coe y => exact ⟨y, rfl⟩

theorem ne_bot_of_ef_le {F : Type} [LinearOrderedField F] {t : EF F} {x : F}
    (h : ef x ≤ t) : t ≠ ⊥ := by
  intro hbot
  rw [hbot, le_bot_iff] at h
  exact ef_ne_bot x h

theorem axisEntry_ne_top {F : Type} [LinearOrderedField F] (ax : F × F × F × F) :
    axisEntry ax ≠ ⊤ := by
  obtain ⟨o, d, mn, mx⟩ := ax
  by_cases hpar : |d| < 1 / 1000000
  · rw [axisEntry_par hpar]
    intro h
    exact Option.noConfusion h
  · rw [axisEntry_nonpar hpar]
    exact ef_ne_top _

theorem specTmin_ne_top {F : Type} [LinearOrderedField F]
    (axes : List (F × F × F × F)) : specTmin axes ≠ ⊤ := by
  induction axes with
  | nil =>
    intro h
    exact Option.noConfusion h
  | cons ax rest ih =>
    rw [specTmin_cons]
    intro h
    rcases max_choice (axisEntry ax) (specTmin rest) with hc | hc <;> rw [hc] at h
    · exact axisEntry_ne_top ax h
    · exact ih h

theorem specTmax_le_of_mem {F : Type} [LinearOrderedField F]
    {axes : List (F × F × F × F)} {ax : F × F × F × F} (hax : ax ∈ axes) :
    specTmax axes ≤ axisExit ax := by
  induction axes with
  | nil => cases hax
  | cons ax' rest ih =>
    rw [specTmax_cons]
    rcases List.mem_cons.1 hax with rfl | hax'
    · exact min_le_left _ _
    · exact (min_le_right _ _).trans (ih hax')

/-- When some axis of the ray direction has magnitude at least `1e-6`, every
hit distance the slab routine returns is finite (never the modelled
`f32::INFINITY`). -/
theorem ray_aabb_finite_of_big_component {F : Type} [LinearOrderedField F]
    {o d mn mx : Vec3 F}
    (hd : ¬ |d.x| < 1 / 1000000 ∨ ¬ |d.y| < 1 / 1000000 ∨ ¬ |d.z| < 1 / 1000000)
    {t : EF F} (ht : ray_aabb_intersection o d mn mx = some t) :
    ∃ tf : F, t = ef tf := by
  rw [ray_aabb_eq_spec, ray_aabb_spec] at ht
  by_cases hex : ∃ ax ∈ axisComponents o d mn mx, parallelOutside ax
  · rw [if_pos hex] at ht
    exact absurd ht (by simp)
  · rw [if_neg hex] at ht
    simp only at ht
    by_cases hgt : specTmin (axisComponents o d mn mx) > specTmax (axisComponents o d mn mx)
    · rw [if_pos hgt] at ht
      exact absurd ht (by simp)
    · rw [if_neg hgt] at ht
      by_cases hneg : specTmax (axisComponents o d mn mx) < ef 0
      · rw [if_pos hneg] at ht
        exact absurd ht (by simp)
      · rw [if_neg hneg] at ht
        by_cases hpos : ef 0 ≤ specTmin (axisComponents o d mn mx)
        · rw [if_pos hpos] at ht
          injection ht with ht
          exact (ht ▸ ef_exists_of_ne (ne_bot_of_ef_le hpos) (specTmin_ne_top _))
        · rw [if_neg hpos] at ht
          injection ht with ht
          have hmem : ∃ ax ∈ axisComponents o d mn mx, ¬ |ax.2.1| < 1 / 1000000 := by
            rcases hd with h | h | h
            · exact ⟨(o.x, d.x, mn.x, mx.x), by simp [axisComponents], h⟩
            · exact ⟨(o.y, d.y, mn.y, mx.y), by simp [axisComponents], h⟩
            · exact ⟨(o.z, d.z, mn.z, mx.z), by simp [axisComponents], h⟩
          obtain ⟨ax, haxmem, haxpar⟩ := hmem
          have htop : specTmax (axisComponents o d mn mx) ≠ ⊤ := by
            intro heq
            have hle := specTmax_le_of_mem haxmem
            rw [heq, top_le_iff] at hle
            obtain ⟨ao, ad, amn, amx⟩ := ax
            rw [axisExit_nonpar haxpar] at hle
            exact ef_ne_top _ hle
          exact ht ▸ ef_exists_of_ne (ne_bot_of_ef_le (not_lt.1 hneg)) htop

end SlabLemmas

section ReparentDeleteLemmas

/-- C1 (code bug): on the three-node chain A (0) → B (1) → C (2), the claim
and the specification require `requestReparent(child = A, newParent = C)` to
be rejected (C is in A's descendant set, so accepting creates a cycle) and
`requestReparent(child = C, newParent = A)` to be accepted.  The code does the
opposite: `is_descendant` walks downward from its `node` argument looking for
`ancestor`, so the guard `is_descendant(child, parent)` tests "child is in
parent's subtree" instead of "parent is in child's subtree".  The
cycle-forming request A → C is accepted (a `SetParent` intent is emitted) and
the legal request C → A is dropped. -/
theorem C1_reparent_check_inverted :
    apply_reparent_event chainChildren 10 ⟨0, some 2⟩ = some (.set_parent 0 2) ∧
      apply_reparent_event chainChildren 10 ⟨2, some 0⟩ = none :=
  ⟨rfl, rfl⟩

/-- C10: confirming deletion of entity `e` clears the selection exactly when
the selection is `some e` (or was already empty); when the selection holds a
strict descendant `s` of `e` — which the recursive despawn also deletes — the
selection is left unchanged, still holding the now-deleted `s`. -/
theorem C10_delete_keeps_descendant_selection (children : Nat → List Nat)
    (e s : Nat) (hdesc : deletedBy children e s) (hne : s ≠ e) :
    (confirmDelete (some s) e).1 = some s ∧ deletedBy children e s ∧
      ∀ sel : Option Nat, (confirmDelete sel e).1 = none ↔ sel = none ∨ sel = some e := by
  refine ⟨by simp [confirmDelete, hne], hdesc, fun sel => ?_⟩
  rcases sel with _ | x
  · simp [confirmDelete]
  · by_cases hx : x = e
    · simp [confirmDelete, hx]
    · simp [confirmDelete, hx]

/-- C10 witness: in the chain A (0) → B (1) → C (2), B is a strict descendant
of A; deleting A keeps the selection pointing at the deleted B. -/
theorem C10_delete_keeps_descendant_selection_witness :
    (confirmDelete (some 1) 0).1 = some 1 ∧ deletedBy chainChildren 0 1 ∧
      ∀ sel : Option Nat, (confirmDelete sel 0).1 = none ↔ sel = none ∨ sel = some 0 :=
  C10_delete_keeps_descendant_selection chainChildren 0 1
    (Relation.ReflTransGen.single (by simp [childStep, chainChildren])) (by decide)

end ReparentDeleteLemmas

section HierarchyLemmas

variable {ch : Nat → List Nat} {uni : Finset Nat}

theorem dfsVisit_mem {stack : List Nat} {visited : Finset Nat} {x : Nat}
    (hx : x ∈ dfsVisit ch uni stack visited) : x ∉ visited ∧ x ∈ uni := by
  induction stack, visited using dfsVisit.induct ch uni with
  | case1 visited => simp [dfsVisit] at hx
  | case2 current stack visited h ih =>
    rw [dfsVisit, dif_pos h] at hx
    exact ih hx
  | case3 current stack visited h ih =>
    rw [dfsVisit, dif_neg h] at hx
    push_neg at h
    rcases List.mem_cons.1 hx with rfl | hx'
    · exact h
    · have hres := ih hx'
      exact ⟨fun hv => hres.1 (Finset.mem_insert_of_mem hv), hres.2⟩

theorem dfsVisit_nodup {stack : List Nat} {visited : Finset Nat} :
    (dfsVisit ch uni stack visited).Nodup := by
  induction stack, visited using dfsVisit.induct ch uni with
  | case1 visited => simp [dfsVisit]
  | case2 current stack visited h ih =>
    rw [dfsVisit, dif_pos h]
    exact ih
  | case3 current stack visited h ih =>
    rw [dfsVisit, dif_neg h]
    exact List.nodup_cons.2
      ⟨fun hmem => (dfsVisit_mem hmem).1 (Finset.mem_insert_self _ _), ih⟩

theorem dfsVisit_stack_covered (hcl : ∀ v c, c ∈ ch v → c ∈ uni)
    {stack : List Nat} {visited : Finset Nat}
    (hstack : ∀ y ∈ stack, y ∈ uni) {x : Nat} (hx : x ∈ stack) :
    x ∈ dfsVisit ch uni stack visited ∨ x ∈ visited := by
  induction stack, visited using dfsVisit.induct ch uni with
  | case1 visited => simp at hx
  | case2 current stack visited h ih =>
    rw [dfsVisit, dif_pos h]
    rcases List.mem_cons.1 hx with rfl | hx'
    · rcases h with h | h
      · exact Or.inr h
      · exact absurd (hstack x (List.mem_cons_self _ _)) h
    · exact ih (fun y hy => hstack y (List.mem_cons_of_mem _ hy)) hx'
  | case3 current stack visited h ih =>
    rw [dfsVisit, dif_neg h]
    have hstack' : ∀ y ∈ (ch current).reverse ++ stack, y ∈ uni := by
      intro y hy
      rcases List.mem_append.1 hy with hy | hy
      · exact hcl current y (List.mem_reverse.1 hy)
      · exact hstack y (List.mem_cons_of_mem _ hy)
    rcases List.mem_cons.1 hx with rfl | hx'
    · exact Or.inl (List.mem_cons_self _ _)
    · rcases ih hstack' (List.mem_append_right _ hx') with hres | hres
      · exact Or.inl (List.mem_cons_of_mem _ hres)
      · rcases Finset.mem_insert.1 hres with rfl | hv
        · exact Or.inl (List.mem_cons_self _ _)
        · exact Or.inr hv

theorem dfsVisit_closed (hcl : ∀ v c, c ∈ ch v → c ∈ uni)
    {stack : List Nat} {visited : Finset Nat}
    (hstack : ∀ y ∈ stack, y ∈ uni) {x c : Nat}
    (hx : x ∈ dfsVisit ch uni stack visited) (hc : c ∈ ch x) :
    c ∈ dfsVisit ch uni stack visited ∨ c ∈ visited := by
  induction stack, visited using dfsVisit.induct ch uni with
  | case1 visited => simp [dfsVisit] at hx
  | case2 current stack visited h ih =>
    rw [dfsVisit, dif_pos h] at hx ⊢
    exact ih (fun y hy => hstack y (List.mem_cons_of_mem _ hy)) hx
  | case3 current stack visited h ih =>
    rw [dfsVisit, dif_neg h] at hx ⊢
    have hstack' : ∀ y ∈ (ch current).reverse ++ stack, y ∈ uni := by
      intro y hy
      rcases List.mem_append.1 hy with hy | hy
      · exact hcl current y (List.mem_reverse.1 hy)
      · exact hstack y (List.mem_cons_of_mem _ hy)
    rcases List.mem_cons.1 hx with rfl | hx'
    · rcases dfsVisit_stack_covered hcl hstack'
          (List.mem_append_left _ (List.mem_reverse.2 hc)) with hres | hres
      · exact Or.inl (List.mem_cons_of_mem _ hres)
      · rcases Finset.mem_insert.1 hres with rfl | hv
        · exact Or.inl (List.mem_cons_self _ _)
        · exact Or.inr hv
    · rcases ih hstack' hx' with hres | hres
      · exact Or.inl (List.mem_cons_of_mem _ hres)
      · rcases Finset.mem_insert.1 hres with rfl | hv
        · exact Or.inl (List.mem_cons_self _ _)
        · exact Or.inr hv

theorem dfsVisit_sound {stack : List Nat} {visited : Finset Nat} {x : Nat}
    (hx : x ∈ dfsVisit ch uni stack visited) :
    ∃ s ∈ stack, Relation.ReflTransGen (childStep ch) s x := by
  induction stack, visited using dfsVisit.induct ch uni with
  | case1 visited => simp [dfsVisit] at hx
  | case2 current stack visited h ih =>
    rw [dfsVisit, dif_pos h] at hx
    obtain ⟨s, hs, hpath⟩ := ih hx
    exact ⟨s, List.mem_cons_of_mem _ hs, hpath⟩
  | case3 current stack visited h ih =>
    rw [dfsVisit, dif_neg h] at hx
    rcases List.mem_cons.1 hx with rfl | hx'
    · exact ⟨x, List.mem_cons_self _ _, Relation.ReflTransGen.refl⟩
    · obtain ⟨s, hs, hpath⟩ := ih hx'
      rcases List.mem_append.1 hs with hs' | hs'
      · exact ⟨current, List.mem_cons_self _ _,
          Relation.ReflTransGen.head (List.mem_reverse.1 hs') hpath⟩
      · exact ⟨s, List.mem_cons_of_mem _ hs', hpath⟩

theorem mem_childrenSorted {rows : List HierarchyRow} {p x : Nat} :
    x ∈ childrenSorted rows p ↔ x ∈ childrenRaw rows p :=
  List.mem_mergeSort

theorem mem_childrenRaw {rows : List HierarchyRow} {p x : Nat} :
    x ∈ childrenRaw rows p ↔ ∃ r, r ∈ rows ∧ r.parent = some p ∧ r.id = x := by
  constructor
  · intro hx
    rw [childrenRaw, List.mem_map] at hx
    obtain ⟨r, hr, hid⟩ := hx
    rw [List.mem_filter] at hr
    exact ⟨r, hr.1, by simpa using hr.2, hid⟩
  · rintro ⟨r, hr, hp, hid⟩
    rw [childrenRaw, List.mem_map]
    exact ⟨r, List.mem_filter.2 ⟨hr, by simpa using hp⟩, hid⟩

theorem childrenRaw_nodup {rows : List HierarchyRow}
    (hids : (rows.map (fun r => r.id)).Nodup) (p : Nat) :
    (childrenRaw rows p).Nodup := by
  rw [childrenRaw]
  exact hids.sublist ((List.filter_sublist rows).map (fun r => r.id))

theorem childrenSorted_nodup {rows : List HierarchyRow}
    (hids : (rows.map (fun r => r.id)).Nodup) (p : Nat) :
    (childrenSorted rows p).Nodup :=
  ((List.mergeSort_perm _ _).nodup_iff).2 (childrenRaw_nodup hids p)

theorem parent_unique {rows : List HierarchyRow}
    (hids : (rows.map (fun r => r.id)).Nodup) {v w x : Nat}
    (hv : x ∈ childrenRaw rows v) (hw : x ∈ childrenRaw rows w) : v = w := by
  obtain ⟨r1, hr1, hp1, hid1⟩ := mem_childrenRaw.1 hv
  obtain ⟨r2, hr2, hp2, hid2⟩ := mem_childrenRaw.1 hw
  have heq : r1 = r2 :=
    List.inj_on_of_nodup_map hids hr1 hr2 (by rw [hid1, hid2])
  rw [heq, hp2] at hp1
  exact Option.some.inj hp1.symm

theorem childrenSorted_mem_uni {rows : List HierarchyRow} {root : Nat} :
    ∀ v c, c ∈ childrenSorted rows v → c ∈ dfsUni rows root := by
  intro v c hc
  obtain ⟨r, hr, _, hid⟩ := mem_childrenRaw.1 (mem_childrenSorted.1 hc)
  exact Finset.mem_insert_of_mem
    (List.mem_toFinset.2 (List.mem_map.2 ⟨r, hr, hid⟩))

theorem reflTransGen_sorted_iff {rows : List HierarchyRow} {a b : Nat} :
    Relation.ReflTransGen (childStep (childrenSorted rows)) a b ↔
      Relation.ReflTransGen (childStep (childrenRaw rows)) a b :=
  ⟨Relation.ReflTransGen.mono fun _ _ h => mem_childrenSorted.1 h,
    Relation.ReflTransGen.mono fun _ _ h => mem_childrenSorted.2 h⟩

theorem root_stack_mem_uni {rows : List HierarchyRow} {root : Nat} :
    ∀ y ∈ [root], y ∈ dfsUni rows root := by
  intro y hy
  rw [List.mem_singleton.1 hy]
  exact Finset.mem_insert_self _ _

/-- The scoped traversal visits exactly the nodes reachable from the scope
root through recorded parent links. -/
theorem mem_scopedVisited (rows : List HierarchyRow) (root : Nat) {x : Nat} :
    x ∈ scopedVisited rows root ↔
      Relation.ReflTransGen (childStep (childrenRaw rows)) root x := by
  constructor
  · intro hx
    obtain ⟨s, hs, hpath⟩ := dfsVisit_sound hx
    rw [List.mem_singleton.1 hs] at hpath
    exact reflTransGen_sorted_iff.1 hpath
  · intro hreach
    have hroot : root ∈ scopedVisited rows root := by
      rcases dfsVisit_stack_covered childrenSorted_mem_uni root_stack_mem_uni
          (List.mem_singleton_self root) with h | h
      · exact h
      · exact absurd h (Finset.not_mem_empty root)
    induction hreach with
    | refl => exact hroot
    | tail _ hstep ih =>
      rcases dfsVisit_closed childrenSorted_mem_uni root_stack_mem_uni ih
          (mem_childrenSorted.2 hstep) with h | h
      · exact h
      · exact absurd h (Finset.not_mem_empty _)

/-- Membership in the concatenation of the scoped children value lists. -/
theorem mem_scopedValues {rows : List HierarchyRow} {root x : Nat} :
    x ∈ ((scopedChildrenEntries rows root).map Prod.snd).flatten ↔
      ∃ v ∈ scopedVisited rows root, x ∈ childrenSorted rows v := by
  constructor
  · intro hx
    rw [List.mem_flatten] at hx
    obtain ⟨l, hl, hxl⟩ := hx
    rw [List.mem_map] at hl
    obtain ⟨pr, hpr, rfl⟩ := hl
    rw [scopedChildrenEntries, List.mem_filterMap] at hpr
    obtain ⟨v, hv, hfv⟩ := hpr
    by_cases hce : hasChildrenEntry rows v
    · rw [if_pos hce] at hfv
      cases hfv
      exact ⟨v, hv, hxl⟩
    · rw [if_neg hce] at hfv
      cases hfv
  · rintro ⟨v, hv, hx⟩
    have hne : childrenRaw rows v ≠ [] :=
      List.ne_nil_of_mem (mem_childrenSorted.1 hx)
    have hce : hasChildrenEntry rows v := by
      simpa [hasChildrenEntry, List.isEmpty_iff] using hne
    rw [List.mem_flatten]
    exact ⟨childrenSorted rows v,
      List.mem_map.2 ⟨(v, childrenSorted rows v),
        List.mem_filterMap.2 ⟨v, hv, by rw [if_pos hce]⟩, rfl⟩, hx⟩

theorem roots_scoped (rows : List HierarchyRow) (root : Nat) :
    rootsFor rows (some root) = [root] :=
  List.mergeSort_singleton root

theorem build_roots (rows : List HierarchyRow) (root : Option Nat) :
    (build_hierarchy_snapshot rows root).roots = rootsFor rows root := by
  cases root <;> rfl

theorem childrenEntries_eq {rows : List HierarchyRow} {root : Option Nat}
    {pr : Nat × List Nat}
    (hpr : pr ∈ (build_hierarchy_snapshot rows root).childrenEntries) :
    pr.2 = childrenSorted rows pr.1 := by
  cases root with
  | none =>
    rw [show (build_hierarchy_snapshot rows none).childrenEntries =
        unscopedChildrenEntries rows from rfl, unscopedChildrenEntries,
      List.mem_map] at hpr
    obtain ⟨p, _, rfl⟩ := hpr
    rfl
  | some r =>
    rw [show (build_hierarchy_snapshot rows (some r)).childrenEntries =
        scopedChildrenEntries rows r from rfl, scopedChildrenEntries,
      List.mem_filterMap] at hpr
    obtain ⟨v, _, hfv⟩ := hpr
    by_cases hce : hasChildrenEntry rows v
    · rw [if_pos hce] at hfv
      cases hfv
      rfl
    · rw [if_neg hce] at hfv
      cases hfv

theorem labelLe_trans (rows : List HierarchyRow) :
    ∀ a b c, labelLe rows a b = true → labelLe rows b c = true →
      labelLe rows a c = true := by
  intro a b c hab hbc
  rw [labelLe, decide_eq_true_iff] at hab hbc ⊢
  exact le_trans hab hbc

theorem labelLe_total (rows : List HierarchyRow) :
    ∀ a b, (labelLe rows a b || labelLe rows b a) = true := by
  intro a b
  rw [labelLe, labelLe]
  rcases le_total (sortLabel rows a) (sortLabel rows b) with h | h <;> simp [h]

/-- C3 (corrected): with distinct queried ids and no parent-link cycle
through the scope root, every id reachable from the scope root appears
exactly once across the snapshot's root list and children value lists — the
scope root as the sole root, every other reachable id in exactly one children
value list — and no id appears twice.  The acyclicity hypothesis is forced by
`C3_snapshot_cycle_counterexample`: on cyclic parent data through the scope
root the visited set stops the traversal, but the root then also appears
inside a children value list. -/
theorem C3_snapshot_partition (rows : List HierarchyRow) (root : Nat)
    (hids : (rows.map (fun r => r.id)).Nodup)
    (hacyc : ¬ Relation.TransGen (childStep (childrenRaw rows)) root root) :
    (snapshotNodes (build_hierarchy_snapshot rows (some root))).Nodup ∧
      ∀ x, x ∈ snapshotNodes (build_hierarchy_snapshot rows (some root)) ↔
        Relation.ReflTransGen (childStep (childrenRaw rows)) root x := by
  have hsnap : snapshotNodes (build_hierarchy_snapshot rows (some root)) =
      root :: ((scopedChildrenEntries rows root).map Prod.snd).flatten := by
    show rootsFor rows (some root) ++ _ = _
    rw [roots_scoped]
    rfl
  constructor
  · rw [hsnap]
    refine List.nodup_cons.2 ⟨?_, ?_⟩
    · intro hmem
      obtain ⟨v, hv, hx⟩ := mem_scopedValues.1 hmem
      exact hacyc (Relation.TransGen.tail'
        ((mem_scopedVisited rows root).1 hv) (mem_childrenSorted.1 hx))
    · rw [List.nodup_flatten]
      constructor
      · intro l hl
        rw [List.mem_map] at hl
        obtain ⟨pr, hpr, rfl⟩ := hl
        rw [scopedChildrenEntries, List.mem_filterMap] at hpr
        obtain ⟨v, _, hfv⟩ := hpr
        by_cases hce : hasChildrenEntry rows v
        · rw [if_pos hce] at hfv
          cases hfv
          exact childrenSorted_nodup hids v
        · rw [if_neg hce] at hfv
          cases hfv
      · rw [List.pairwise_map]
        refine List.Pairwise.filterMap _ ?_ dfsVisit_nodup
        intro a a' hne b hb b' hb'
        by_cases hca : hasChildrenEntry rows a
        · by_cases hca' : hasChildrenEntry rows a'
          · rw [if_pos hca] at hb
            rw [if_pos hca'] at hb'
            cases hb
            cases hb'
            intro x hx hx'
            exact hne (parent_unique hids (mem_childrenSorted.1 hx)
              (mem_childrenSorted.1 hx'))
          · rw [if_neg hca'] at hb'
            cases hb'
        · rw [if_neg hca] at hb
          cases hb
  · intro x
    rw [hsnap, List.mem_cons]
    constructor
    · rintro (rfl | hx)
      · exact Relation.ReflTransGen.refl
      · obtain ⟨v, hv, hxv⟩ := mem_scopedValues.1 hx
        exact Relation.ReflTransGen.tail ((mem_scopedVisited rows root).1 hv)
          (mem_childrenSorted.1 hxv)
    · intro hreach
      rcases Relation.ReflTransGen.cases_tail hreach with heq | ⟨v, hv, hstep⟩
      · exact Or.inl heq
      · exact Or.inr (mem_scopedValues.2
          ⟨v, (mem_scopedVisited rows root).2 hv, mem_childrenSorted.2 hstep⟩)

/-- C3 witness: the two-node store with 1 a child of the root 0. -/
theorem C3_snapshot_partition_witness :
    (snapshotNodes (build_hierarchy_snapshot rowsOk (some 0))).Nodup ∧
      ∀ x, x ∈ snapshotNodes (build_hierarchy_snapshot rowsOk (some 0)) ↔
        Relation.ReflTransGen (childStep (childrenRaw rowsOk)) 0 x := by
  have hnostep : ∀ b : Nat, ¬ childStep (childrenRaw rowsOk) b 0 := by
    intro b hb
    obtain ⟨r, hr, hp, hid⟩ := mem_childrenRaw.1 hb
    rw [show rowsOk = [⟨0, none, none⟩, ⟨1, none, some 0⟩] from rfl] at hr
    rcases List.mem_cons.1 hr with rfl | hr'
    · exact Option.noConfusion hp
    · rw [List.mem_singleton.1 hr'] at hid
      exact Nat.noConfusion hid
  have hacyc : ¬ Relation.TransGen (childStep (childrenRaw rowsOk)) 0 0 := by
    intro h
    cases h with
    | single hs => exact hnostep _ hs
    | tail _ hs => exact hnostep _ hs
  exact C3_snapshot_partition rowsOk 0 (by decide) hacyc

/-- C3 counterexample: on the cyclic store `rowsCyc` (0's parent is 1, 1's
parent is 0) scoped at root 0, the root id 0 appears both as the sole root
and inside the children value list of the visited node 1, so the snapshot
node list is not duplicate-free. -/
theorem C3_snapshot_cycle_counterexample :
    ¬ (snapshotNodes (build_hierarchy_snapshot rowsCyc (some 0))).Nodup := by
  intro hnd
  have hsnap : snapshotNodes (build_hierarchy_snapshot rowsCyc (some 0)) =
      0 :: ((scopedChildrenEntries rowsCyc 0).map Prod.snd).flatten := by
    show rootsFor rowsCyc (some 0) ++ _ = _
    rw [roots_scoped]
    rfl
  rw [hsnap] at hnd
  have h1V : (1 : Nat) ∈ scopedVisited rowsCyc 0 :=
    (mem_scopedVisited rowsCyc 0).2 (Relation.ReflTransGen.single
      (show (1 : Nat) ∈ childrenRaw rowsCyc 0 by decide))
  have h0L : (0 : Nat) ∈ ((scopedChildrenEntries rowsCyc 0).map Prod.snd).flatten :=
    mem_scopedValues.2 ⟨1, h1V, mem_childrenSorted.2
      (show (0 : Nat) ∈ childrenRaw rowsCyc 1 by decide)⟩
  exact (List.nodup_cons.1 hnd).1 h0L

/-- C9: in every snapshot (scoped or not) the root list and every children
value list are sorted by label — entities without a `Name` sorting under their
generated "Entity N" placeholder — and ties between ids of equal label keep
the stable input order: a pair in input order in the unsorted list stays in
that order in the sorted list. -/
theorem C9_snapshot_sorted (rows : List HierarchyRow) (root : Option Nat) :
    ((build_hierarchy_snapshot rows root).roots.Pairwise
        (fun a b => sortLabel rows a ≤ sortLabel rows b) ∧
      ∀ pr ∈ (build_hierarchy_snapshot rows root).childrenEntries,
        pr.2.Pairwise (fun a b => sortLabel rows a ≤ sortLabel rows b)) ∧
    ((∀ a b : Nat, sortLabel rows a = sortLabel rows b →
        [a, b].Sublist (rootsRawFor rows root) →
        [a, b].Sublist (build_hierarchy_snapshot rows root).roots) ∧
      ∀ pr ∈ (build_hierarchy_snapshot rows root).childrenEntries,
        ∀ a b : Nat, sortLabel rows a = sortLabel rows b →
          [a, b].Sublist (childrenRaw rows pr.1) →
          [a, b].Sublist pr.2) := by
  have hsorted : ∀ l : List Nat,
      (l.mergeSort (labelLe rows)).Pairwise
        (fun a b => sortLabel rows a ≤ sortLabel rows b) := by
    intro l
    refine (List.sorted_mergeSort (labelLe_trans rows) (labelLe_total rows) l).imp ?_
    intro a b h
    rw [labelLe, decide_eq_true_iff] at h
    exact h
  have hstable : ∀ (l : List Nat) (a b : Nat), sortLabel rows a = sortLabel rows b →
      [a, b].Sublist l → [a, b].Sublist (l.mergeSort (labelLe rows)) := by
    intro l a b heq hsub
    exact List.pair_sublist_mergeSort (labelLe_trans rows) (labelLe_total rows)
      (by rw [labelLe, decide_eq_true_iff, heq]) hsub
  refine ⟨⟨?_, ?_⟩, ?_, ?_⟩
  · rw [build_roots, rootsFor]
    exact hsorted _
  · intro pr hpr
    rw [childrenEntries_eq hpr, childrenSorted]
    exact hsorted _
  · intro a b heq hsub
    rw [build_roots, rootsFor]
    exact hstable _ a b heq hsub
  · intro pr hpr a b heq hsub
    rw [childrenEntries_eq hpr, childrenSorted]
    exact hstable _ a b heq hsub

/-- C9 witness: in `rowsAb` the children 7 and 9 of root 5 share the label
"a"; the sorted children list keeps them in input order. -/
theorem C9_snapshot_sorted_witness :
    (build_hierarchy_snapshot rowsAb none).roots.Pairwise
        (fun a b => sortLabel rowsAb a ≤ sortLabel rowsAb b) ∧
      [7, 9].Sublist (childrenSorted rowsAb 5) :=
  ⟨(C9_snapshot_sorted rowsAb none).1.1,
    (C9_snapshot_sorted rowsAb none).2.2 (5, childrenSorted rowsAb 5)
      (show _ ∈ [(5, childrenSorted rowsAb 5)] from List.mem_singleton_self _)
      7 9 rfl (show [7, 9].Sublist [7, 9] from List.Sublist.refl _)⟩

end HierarchyLemmas

section GizmoLemmas

@[simp]
theorem Vec2_add_x {F : Type} [Add F] (a b : Vec2 F) : (a + b).x = a.x + b.x := rfl

@[simp]
theorem Vec2_add_y {F : Type} [Add F] (a b : Vec2 F) : (a + b).y = a.y + b.y := rfl

@[simp]
theorem Vec2_zero_x {F : Type} [Zero F] : (0 : Vec2 F).x = 0 := rfl

@[simp]
theorem Vec2_zero_y {F : Type} [Zero F] : (0 : Vec2 F).y = 0 := rfl

@[simp]
theorem Vec3_add_def {F : Type} [Add F] (a b : Vec3 F) :
    a + b = ⟨a.x + b.x, a.y + b.y, a.z + b.z⟩ := rfl

@[simp]
theorem Vec3_smul_def {F : Type} [Mul F] (c : F) (v : Vec3 F) :
    c • v = ⟨c * v.x, c * v.y, c * v.z⟩ := rfl

/-- C4 (corrected): `active_axis` is cleared exactly by the primary-button
check, which is reached only when the egui context is available, the pointer
is not captured away from a non-hovered viewport, and the viewport is
focused; under those conditions a released button clears the axis.  Focus
loss alone does not clear it (`C4_focus_loss_counterexample`). -/
theorem C4_release_clears_axis (inp : GizmoInput)
    (hctx : inp.ctxAvailable = true)
    (hcap : inp.wantsPointer = false ∨ inp.viewportHovered = true)
    (hfoc : inp.viewportFocused = true)
    (hleft : inp.leftPressed = false) :
    (update_selected_entity_transform inp).activeAxis = none := by
  rcases hcap with h | h <;>
    simp [update_selected_entity_transform, hctx, hfoc, hleft, h]

/-- C4 witness: a concrete released-button step with an active axis. -/
theorem C4_release_clears_axis_witness :
    (update_selected_entity_transform
      { ctxAvailable := true, wantsPointer := false, viewportHovered := false
        viewportFocused := true, leftPressed := false, rightPressed := false
        middlePressed := false, motions := [], selected := none
        activeAxis := some GizmoAxis.Z, gizmoMode := GizmoMode.Rotate
        axisSpace := AxisSpace.Local, camera := none
        selectedTransform := none }).activeAxis = none :=
  C4_release_clears_axis _ rfl (Or.inl rfl) rfl rfl

/-- C4 counterexample: when the viewport loses focus (here with the primary
button also released), the early `!viewport_focused` return leaves
`active_axis` untouched — still `some X` — where the claim requires it to be
cleared by the end of the step. -/
theorem C4_focus_loss_counterexample :
    (update_selected_entity_transform focusLossInput).activeAxis =
      some GizmoAxis.X := by
  simp [update_selected_entity_transform, focusLossInput]

/-- C2 (corrected): in a Scale drag with an active axis the updated component
is `max (s * clamp (1 + (dx + dy) * 0.005) 0.1 10) 0.01`; it is never below
`0.01` but can equal `0.01` exactly (`C2_scale_floor_counterexample`), so the
claim's "never ≤ 0.01" is weakened to "never < 0.01".  The other two scale
components, the translation and the rotation are unchanged. -/
theorem C2_scale_update (inp : GizmoInput) (ent : Nat)
    (camera transform : Transform) (axis : GizmoAxis)
    (hctx : inp.ctxAvailable = true)
    (hcap : inp.wantsPointer = false ∨ inp.viewportHovered = true)
    (hfoc : inp.viewportFocused = true)
    (hleft : inp.leftPressed = true)
    (hsel : inp.selected = some ent)
    (hcam : inp.camera = some camera)
    (hright : inp.rightPressed = false)
    (hmid : inp.middlePressed = false)
    (hdelta : (gizmoDelta inp).x * (gizmoDelta inp).x +
      (gizmoDelta inp).y * (gizmoDelta inp).y ≠ 0)
    (htr : inp.selectedTransform = some transform)
    (hmode : inp.gizmoMode = GizmoMode.Scale)
    (haxis : inp.activeAxis = some axis) :
    ∃ tr', (update_selected_entity_transform inp).transformWrite = some tr' ∧
      scaleComp axis tr'.scale =
        max (scaleComp axis transform.scale *
          min (max (1 + ((gizmoDelta inp).x + (gizmoDelta inp).y) * 0.005) 0.1) 10) 0.01 ∧
      (0.01 : ℝ) ≤ scaleComp axis tr'.scale ∧
      (∀ other : GizmoAxis, other ≠ axis →
        scaleComp other tr'.scale = scaleComp other transform.scale) ∧
      tr'.translation = transform.translation ∧
      tr'.rotation = transform.rotation := by
  cases axis with
  | X =>
    have hw : (update_selected_entity_transform inp).transformWrite =
        some { transform with scale :=
          ⟨max (transform.scale.x *
              (min (max (1 + ((gizmoDelta inp).x + (gizmoDelta inp).y) * 0.005) 0.1) 10)) 0.01,
            transform.scale.y, transform.scale.z⟩ } := by
      rcases hcap with h | h <;>
        simp [update_selected_entity_transform, hctx, hfoc, hleft, h, hsel, hcam,
          hright, hmid, hdelta, htr, hmode, haxis]
    refine ⟨_, hw, rfl, le_max_right _ _, ?_, rfl, rfl⟩
    intro other hne
    cases other with
    | X => exact absurd rfl hne
    | Y => rfl
    | Z => rfl
  | Y =>
    have hw : (update_selected_entity_transform inp).transformWrite =
        some { transform with scale :=
          ⟨transform.scale.x,
            max (transform.scale.y *
              (min (max (1 + ((gizmoDelta inp).x + (gizmoDelta inp).y) * 0.005) 0.1) 10)) 0.01,
            transform.scale.z⟩ } := by
      rcases hcap with h | h <;>
        simp [update_selected_entity_transform, hctx, hfoc, hleft, h, hsel, hcam,
          hright, hmid, hdelta, htr, hmode, haxis]
    refine ⟨_, hw, rfl, le_max_right _ _, ?_, rfl, rfl⟩
    intro other hne
    cases other with
    | X => rfl
    | Y => exact absurd rfl hne
    | Z => rfl
  | Z =>
    have hw : (update_selected_entity_transform inp).transformWrite =
        some { transform with scale :=
          ⟨transform.scale.x, transform.scale.y,
            max (transform.scale.z *
              (min (max (1 + ((gizmoDelta inp).x + (gizmoDelta inp).y) * 0.005) 0.1) 10)) 0.01⟩ } := by
      rcases hcap with h | h <;>
        simp [update_selected_entity_transform, hctx, hfoc, hleft, h, hsel, hcam,
          hright, hmid, hdelta, htr, hmode, haxis]
    refine ⟨_, hw, rfl, le_max_right _ _, ?_, rfl, rfl⟩
    intro other hne
    cases other with
    | X => rfl
    | Y => rfl
    | Z => exact absurd rfl hne

/-- C2 witness: a concrete Scale drag on the Y axis with delta `(10, 10)`. -/
theorem C2_scale_update_witness :
    ∃ tr', (update_selected_entity_transform scaleWitnessInput).transformWrite =
        some tr' ∧
      scaleComp GizmoAxis.Y tr'.scale =
        max (scaleComp GizmoAxis.Y scaleWitnessTransform.scale *
          min (max (1 + ((gizmoDelta scaleWitnessInput).x +
            (gizmoDelta scaleWitnessInput).y) * 0.005) 0.1) 10) 0.01 ∧
      (0.01 : ℝ) ≤ scaleComp GizmoAxis.Y tr'.scale ∧
      (∀ other : GizmoAxis, other ≠ GizmoAxis.Y →
        scaleComp other tr'.scale = scaleComp other scaleWitnessTransform.scale) ∧
      tr'.translation = scaleWitnessTransform.translation ∧
      tr'.rotation = scaleWitnessTransform.rotation :=
  C2_scale_update scaleWitnessInput 0 moveWitnessCamera scaleWitnessTransform
    GizmoAxis.Y rfl (Or.inl rfl) rfl rfl rfl rfl rfl rfl
    (by norm_num [gizmoDelta, scaleWitnessInput]) rfl rfl rfl

/-- C2 counterexample: starting from X scale `0.01` with delta `(-1000, 0)`
(`clamp` factor `0.1`), the resulting X scale component is exactly `0.01`,
hence ≤ `0.01`, refuting "the resulting scale component is never ≤ 0.01
regardless of the starting value". -/
theorem C2_scale_floor_counterexample :
    (update_selected_entity_transform scaleFloorInput).transformWrite.map
      (fun tr => tr.scale.x) = some (1 / 100) := by
  norm_num [update_selected_entity_transform, scaleFloorInput, gizmoDelta,
    max_def, min_def]

/-- C7 (corrected): in a Move drag the translation changes by the view-plane
world delta `(right * dx + up * -dy) * (0.002 * distance)` when no axis is
active, and by that delta's projection onto the active axis direction (the
object moves only along that axis) when an axis is active — with `distance`
the camera-to-object distance floored at `0.1` (the floor is forced by
`C7_distance_floor_counterexample`; the claim's bare `distanceToObject` fails
when the camera is within 0.1 of the object). -/
theorem C7_move_update (inp : GizmoInput) (ent : Nat)
    (camera transform : Transform)
    (hctx : inp.ctxAvailable = true)
    (hcap : inp.wantsPointer = false ∨ inp.viewportHovered = true)
    (hfoc : inp.viewportFocused = true)
    (hleft : inp.leftPressed = true)
    (hsel : inp.selected = some ent)
    (hcam : inp.camera = some camera)
    (hright : inp.rightPressed = false)
    (hmid : inp.middlePressed = false)
    (hdelta : (gizmoDelta inp).x * (gizmoDelta inp).x +
      (gizmoDelta inp).y * (gizmoDelta inp).y ≠ 0)
    (htr : inp.selectedTransform = some transform)
    (hmode : inp.gizmoMode = GizmoMode.Move) :
    (inp.activeAxis = none →
      (update_selected_entity_transform inp).transformWrite =
        some { transform with translation :=
          transform.translation + gizmoWorldDelta inp camera transform }) ∧
    ∀ axis : GizmoAxis, inp.activeAxis = some axis →
      (update_selected_entity_transform inp).transformWrite =
        some { transform with translation := (transform.translation +
          (((gizmoWorldDelta inp camera transform).dot
            (axisDir inp.axisSpace transform.rotation axis)) •
            axisDir inp.axisSpace transform.rotation axis)) } := by
  constructor
  · intro hnone
    rcases hcap with h | h <;>
      simp [update_selected_entity_transform, hctx, hfoc, hleft, h, hsel, hcam,
        hright, hmid, hdelta, htr, hmode, hnone]
  · intro axis haxis
    rcases hcap with h | h <;>
      simp [update_selected_entity_transform, hctx, hfoc, hleft, h, hsel, hcam,
        hright, hmid, hdelta, htr, hmode, haxis]

/-- C7 witness: the spec scenario — delta `(0, -10)`, global Y axis, camera 5
units from the object; the object moves only along Y, by
`10 * 0.002 * 5 = 0.1`. -/
theorem C7_move_update_witness :
    (update_selected_entity_transform moveWitnessInput).transformWrite =
        some { moveWitnessTransform with translation :=
          (moveWitnessTransform.translation +
          (((gizmoWorldDelta moveWitnessInput moveWitnessCamera moveWitnessTransform).dot
            (axisDir AxisSpace.Global moveWitnessTransform.rotation GizmoAxis.Y)) •
            axisDir AxisSpace.Global moveWitnessTransform.rotation GizmoAxis.Y)) } ∧
      (update_selected_entity_transform moveWitnessInput).transformWrite.map
        (fun tr => tr.translation.y) = some (1 / 10) := by
  have happ := (C7_move_update moveWitnessInput 0 moveWitnessCamera
    moveWitnessTransform rfl (Or.inl rfl) rfl rfl rfl rfl rfl rfl
    (by norm_num [gizmoDelta, moveWitnessInput]) rfl rfl).2 GizmoAxis.Y rfl
  refine ⟨happ, ?_⟩
  rw [happ]
  have hsq : dist3 (⟨0, 0, 5⟩ : Vec3R) ⟨0, 0, 0⟩ = 5 := by
    rw [dist3]
    norm_num
    rw [show (25 : ℝ) = 5 ^ 2 by norm_num]
    exact Real.sqrt_sq (by norm_num)
  norm_num [gizmoWorldDelta, gizmoDelta, moveWitnessInput, axisDir,
    Quat.rotateVec, Vec3.cross, Vec3.dot, moveWitnessCamera, moveWitnessTransform,
    max_def]
  rw [hsq]
  norm_num

/-- C7 counterexample: with the camera exactly at the object
(`distanceToObject = 0`), the claim's formula predicts no movement, but the
code floors the distance at `0.1` and moves the object along Y by
`10 * 0.002 * 0.1 = 1/500`. -/
theorem C7_distance_floor_counterexample :
    (update_selected_entity_transform moveFloorInput).transformWrite.map
      (fun tr => tr.translation.y) = some (1 / 500) := by
  have hdist : dist3 (⟨0, 0, 0⟩ : Vec3R) ⟨0, 0, 0⟩ = 0 := by
    rw [dist3]
    norm_num
  norm_num [update_selected_entity_transform, moveFloorInput, gizmoWorldDelta,
    gizmoDelta, axisDir, Quat.rotateVec, Vec3.cross, Vec3.dot, hdist, max_def]

end GizmoLemmas

section PickingLemmas

variable {origin direction : Vec3R}

theorem efFinite_eq_some {F : Type} {t : EF F} {x : F} :
    efFinite t = some x ↔ t = ef x := by
  induction t using WithBot.recBotCoe with
  | bot => simp [efFinite, ef]
  | coe s =>
    induction s using WithTop.recTopCoe with
    | top =>
      constructor
      · intro h
        exact Option.noConfusion h
      · intro h
        exact absurd h (by simp [ef])
    | coe y => simp [efFinite, ef, WithBot.recBotCoe_coe, WithTop.recTopCoe_coe]

theorem pickBest_none_iff {best : Option (Nat × ℝ)} {cs : List PickCandidate} :
    pickBest origin direction best cs = none ↔
      best = none ∧ ∀ c ∈ cs, candidateHit origin direction c = none := by
  induction cs generalizing best with
  | nil => simp [pickBest]
  | cons c rest ih =>
    cases hc : candidateHit origin direction c with
    | none => simp [pickBest, hc, ih]
    | some dc =>
      cases best with
      | none => simp [pickBest, hc, ih]
      | some pr =>
        by_cases hlt : dc < pr.2 <;> simp [pickBest, hc, hlt, ih]

theorem pickBest_acc_spec {cs : List PickCandidate} :
    ∀ {a : Nat} {da : ℝ} {e : Nat} {dst : ℝ},
      pickBest origin direction (some (a, da)) cs = some (e, dst) →
        dst ≤ da ∧
        (∀ c' ∈ cs, ∀ d', candidateHit origin direction c' = some d' → dst ≤ d') ∧
        ((e = a ∧ dst = da) ∨
          ∃ l1 c l2, cs = l1 ++ c :: l2 ∧ c.id = e ∧
            candidateHit origin direction c = some dst ∧ dst < da ∧
            ∀ c' ∈ l1, ∀ d', candidateHit origin direction c' = some d' → dst < d') := by
  induction cs with
  | nil =>
    intro a da e dst h
    simp only [pickBest, Option.some.injEq, Prod.mk.injEq] at h
    exact ⟨h.2.symm.le, by simp, Or.inl ⟨h.1.symm, h.2.symm⟩⟩
  | cons c rest ih =>
    intro a da e dst h
    cases hc : candidateHit origin direction c with
    | none =>
      simp only [pickBest, hc] at h
      obtain ⟨h1, h2, h3⟩ := ih h
      refine ⟨h1, ?_, ?_⟩
      · intro c' hc' d' hd'
        rcases List.mem_cons.1 hc' with rfl | hc'
        · rw [hc] at hd'
          cases hd'
        · exact h2 c' hc' d' hd'
      · rcases h3 with h3 | ⟨l1, cc, l2, hsplit, hid, hhit, hlt, hl1⟩
        · exact Or.inl h3
        · refine Or.inr ⟨c :: l1, cc, l2, by rw [hsplit]; rfl, hid, hhit, hlt, ?_⟩
          intro c' hc' d' hd'
          rcases List.mem_cons.1 hc' with rfl | hc'
          · rw [hc] at hd'
            cases hd'
          · exact hl1 c' hc' d' hd'
    | some dc =>
      by_cases hlt : dc < da
      · simp only [pickBest, hc] at h
        rw [if_pos hlt] at h
        obtain ⟨h1, h2, h3⟩ := ih h
        refine ⟨h1.trans hlt.le, ?_, ?_⟩
        · intro c' hc' d' hd'
          rcases List.mem_cons.1 hc' with rfl | hc'
          · rw [hc] at hd'
            injection hd' with hd'
            rw [← hd']
            exact h1
          · exact h2 c' hc' d' hd'
        · rcases h3 with ⟨he, hd⟩ | ⟨l1, cc, l2, hsplit, hid, hhit, hlt2, hl1⟩
          · refine Or.inr ⟨[], c, rest, rfl, he ▸ rfl, ?_, hd ▸ hlt, ?_⟩
            · rw [hc, hd]
            · intro c' hc' d' hd'
              cases hc'
          · refine Or.inr ⟨c :: l1, cc, l2, by rw [hsplit]; rfl, hid, hhit,
              hlt2.trans hlt, ?_⟩
            intro c' hc' d' hd'
            rcases List.mem_cons.1 hc' with rfl | hc'
            · rw [hc] at hd'
              injection hd' with hd'
              rw [← hd']
              exact hlt2
            · exact hl1 c' hc' d' hd'
      · simp only [pickBest, hc] at h
        rw [if_neg hlt] at h
        obtain ⟨h1, h2, h3⟩ := ih h
        refine ⟨h1, ?_, ?_⟩
        · intro c' hc' d' hd'
          rcases List.mem_cons.1 hc' with rfl | hc'
          · rw [hc] at hd'
            injection hd' with hd'
            rw [← hd']
            exact h1.trans (not_lt.1 hlt)
          · exact h2 c' hc' d' hd'
        · rcases h3 with h3 | ⟨l1, cc, l2, hsplit, hid, hhit, hlt2, hl1⟩
          · exact Or.inl h3
          · refine Or.inr ⟨c :: l1, cc, l2, by rw [hsplit]; rfl, hid, hhit, hlt2, ?_⟩
            intro c' hc' d' hd'
            rcases List.mem_cons.1 hc' with rfl | hc'
            · rw [hc] at hd'
              injection hd' with hd'
              rw [← hd']
              exact hlt2.trans_le (not_lt.1 hlt)
            · exact hl1 c' hc' d' hd'

theorem pickBest_spec {cs : List PickCandidate} {e : Nat} {dst : ℝ}
    (h : pickBest origin direction none cs = some (e, dst)) :
    firstMin origin direction cs e dst := by
  induction cs with
  | nil => simp [pickBest] at h
  | cons c rest ih =>
    cases hc : candidateHit origin direction c with
    | none =>
      simp only [pickBest, hc] at h
      obtain ⟨l1, cc, l2, hsplit, hid, hhit, hl1, hl2⟩ := ih h
      refine ⟨c :: l1, cc, l2, by rw [hsplit]; rfl, hid, hhit, ?_, hl2⟩
      intro c' hc' d' hd'
      rcases List.mem_cons.1 hc' with rfl | hc'
      · rw [hc] at hd'
        cases hd'
      · exact hl1 c' hc' d' hd'
    | some dc =>
      simp only [pickBest, hc] at h
      obtain ⟨h1, h2, h3⟩ := pickBest_acc_spec h
      rcases h3 with ⟨he, hd⟩ | ⟨l1, cc, l2, hsplit, hid, hhit, hlt, hl1⟩
      · refine ⟨[], c, rest, rfl, he ▸ rfl, by rw [hc, hd], ?_, ?_⟩
        · intro c' hc' d' hd'
          cases hc'
        · intro c' hc' d' hd'
          exact h2 c' hc' d' hd'
      · refine ⟨c :: l1, cc, l2, by rw [hsplit]; rfl, hid, hhit, ?_, ?_⟩
        · intro c' hc' d' hd'
          rcases List.mem_cons.1 hc' with rfl | hc'
          · rw [hc] at hd'
            injection hd' with hd'
            rw [← hd']
            exact hlt
          · exact hl1 c' hc' d' hd'
        · intro c' hc' d' hd'
          have hmem : c' ∈ rest := by
            rw [hsplit]
            exact List.mem_append_right l1 (List.mem_cons_of_mem _ hc')
          exact h2 c' hmem d' hd'

/-- C5: the picking loop over a candidate sequence — candidates with a
singular (non-invertible) world transform are rejected, a computed hit
distance is the world-space distance from the ray origin to the local hit
point mapped back to world space, the result is the candidate with the
strictly smallest distance with ties keeping the first encountered, and on a
miss the selection is cleared to `None` (never left unchanged). -/
theorem C5_pick_engine (origin direction : Vec3R) (cs : List PickCandidate) :
    (∀ prev, (∀ c ∈ cs, candidateHit origin direction c = none) →
        pickSelection prev origin direction cs = none) ∧
    (∀ c : PickCandidate, c.world.det = 0 →
        candidateHit origin direction c = none) ∧
    (∀ c : PickCandidate, ∀ mn mx : Vec3R, ∀ dst : ℝ, c.aabb = some (mn, mx) →
        candidateHit origin direction c = some dst → ∃ t : ℝ,
          ray_aabb_intersection (transformPoint3 c.world⁻¹ origin)
              (normalizeOrZero (transformVector3 c.world⁻¹ direction)) mn mx =
            some (ef t) ∧
          dst = dist3 (transformPoint3 c.world
            (transformPoint3 c.world⁻¹ origin +
              t • normalizeOrZero (transformVector3 c.world⁻¹ direction))) origin) ∧
    (∀ e dst, pickBest origin direction none cs = some (e, dst) →
        firstMin origin direction cs e dst ∧
        ∀ prev, pickSelection prev origin direction cs = some e) := by
  refine ⟨?_, ?_, ?_, ?_⟩
  · intro prev hall
    rw [pickSelection]
    rw [pickBest_none_iff.2 ⟨rfl, hall⟩]
  · intro c hdet
    rw [candidateHit]
    cases haabb : c.aabb with
    | none => rfl
    | some pr =>
      obtain ⟨mn, mx⟩ := pr
      simp only [ray_aabb_intersection_world]
      rw [if_pos hdet]
  · intro c mn mx dst haabb hhit
    rw [candidateHit] at hhit
    rw [haabb] at hhit
    simp only [ray_aabb_intersection_world] at hhit
    by_cases hdet : c.world.det = 0
    · rw [if_pos hdet] at hhit
      cases hhit
    · rw [if_neg hdet] at hhit
      cases hray : ray_aabb_intersection (transformPoint3 c.world⁻¹ origin)
          (normalizeOrZero (transformVector3 c.world⁻¹ direction)) mn mx with
      | none =>
        simp only [hray] at hhit
        exact Option.noConfusion hhit
      | some t =>
        simp only [hray] at hhit
        cases hef : efFinite t with
        | none =>
          simp only [hef] at hhit
          exact Option.noConfusion hhit
        | some tf =>
          simp only [hef, Option.some.injEq] at hhit
          exact ⟨tf, by rw [← efFinite_eq_some.1 hef], hhit.symm⟩
  · intro e dst h
    refine ⟨pickBest_spec h, fun prev => ?_⟩
    rw [pickSelection]
    rw [h]

/-- C5 witness: a skipped candidate (no usable AABB) gives a miss that clears
the selection, and a singular world transform is rejected. -/
theorem C5_pick_engine_witness :
    pickSelection (some 3) ⟨-5, 1/2, 1/2⟩ ⟨1, 0, 0⟩ [pickMissCandidate] = none ∧
      candidateHit ⟨-5, 1/2, 1/2⟩ ⟨1, 0, 0⟩ pickZeroDetCandidate = none :=
  ⟨(C5_pick_engine ⟨-5, 1/2, 1/2⟩ ⟨1, 0, 0⟩ [pickMissCandidate]).1 (some 3)
      (fun c hc => by rw [List.mem_singleton.1 hc]; rfl),
    (C5_pick_engine ⟨-5, 1/2, 1/2⟩ ⟨1, 0, 0⟩ []).2.1 pickZeroDetCandidate
      (Matrix.det_zero ⟨0⟩)⟩

/-- A normalized nonzero vector has some component of magnitude at least
`1e-6` (its squared norm is `1`, while three components below `1e-6` bound
the squared norm by `3e-12`). -/
theorem normalizeOrZero_big_component (v : Vec3R) (hv : v ≠ 0) :
    ¬ |(normalizeOrZero v).x| < 1 / 1000000 ∨
      ¬ |(normalizeOrZero v).y| < 1 / 1000000 ∨
      ¬ |(normalizeOrZero v).z| < 1 / 1000000 := by
  have hs0 : 0 < v.x ^ 2 + v.y ^ 2 + v.z ^ 2 := by
    rcases eq_or_lt_of_le (by positivity : (0 : ℝ) ≤ v.x ^ 2 + v.y ^ 2 + v.z ^ 2) with h | h
    · exfalso
      apply hv
      obtain ⟨x, y, z⟩ := v
      simp only at h
      have hx : x = 0 := by nlinarith [sq_nonneg x, sq_nonneg y, sq_nonneg z]
      have hy : y = 0 := by nlinarith [sq_nonneg x, sq_nonneg y, sq_nonneg z]
      have hz : z = 0 := by nlinarith [sq_nonneg x, sq_nonneg y, sq_nonneg z]
      rw [hx, hy, hz]
      rfl
    · exact h
  have hnz : normalizeOrZero v = (1 / Real.sqrt (v.x ^ 2 + v.y ^ 2 + v.z ^ 2)) • v := by
    rw [normalizeOrZero, if_neg hv]
  have hsq : Real.sqrt (v.x ^ 2 + v.y ^ 2 + v.z ^ 2) ^ 2 = v.x ^ 2 + v.y ^ 2 + v.z ^ 2 :=
    Real.sq_sqrt hs0.le
  have hsqrt0 : 0 < Real.sqrt (v.x ^ 2 + v.y ^ 2 + v.z ^ 2) := Real.sqrt_pos.2 hs0
  have hsum : (normalizeOrZero v).x ^ 2 + (normalizeOrZero v).y ^ 2 +
      (normalizeOrZero v).z ^ 2 = 1 := by
    rw [hnz, Vec3_smul_def]
    field_simp
  by_contra hcon
  push_neg at hcon
  obtain ⟨h1, h2, h3⟩ := hcon
  nlinarith [abs_nonneg (normalizeOrZero v).x, abs_nonneg (normalizeOrZero v).y,
    abs_nonneg (normalizeOrZero v).z, sq_abs (normalizeOrZero v).x,
    sq_abs (normalizeOrZero v).y, sq_abs (normalizeOrZero v).z, hsum]

/-- The `efFinite = none` branch of `ray_aabb_intersection_world` is
unreachable whenever the direction transformed into local space is nonzero:
the normalized local direction then has a component of magnitude at least
`1e-6`, so the slab routine's hit parameter is finite. -/
theorem ray_aabb_world_hit_finite (w : Mat4) (o d mn mx : Vec3R)
    (hd : transformVector3 w⁻¹ d ≠ 0) {t : EF ℝ}
    (ht : ray_aabb_intersection (transformPoint3 w⁻¹ o)
      (normalizeOrZero (transformVector3 w⁻¹ d)) mn mx = some t) :
    ∃ tf : ℝ, t = ef tf :=
  ray_aabb_finite_of_big_component (normalizeOrZero_big_component _ hd) ht

end PickingLemmas

end WaffleEngine
